import Mathlib

set_option autoImplicit false
set_option linter.unusedSectionVars false

/-!
Shallow embedding of the merge-and-conflict-detection core of the
podpreset webhook (`pkg/handler/handler.go`).

Modelling conventions:
* Go slices are `Option (List α)`: `none` is the nil slice, `some l` a
  non-nil slice holding `l`.  `make([]T, n)`/`append` always produce a
  non-nil slice; `append(nil)` with nothing to add stays nil.
* Go maps are functions `κ → Option α`; assignment is pointwise update.
* The Kubernetes value types (`corev1.EnvVar`, `corev1.Volume`, ...) are
  external library types; they are embedded with their identity-key
  fields verbatim and the remaining fields collapsed into one payload
  field, which is exactly the granularity the handler observes: it reads
  the key fields and otherwise only compares whole values with
  `reflect.DeepEqual` (structural equality).
* A Go `error` built by `utilerrors.NewAggregate(errs)` is nil iff
  `errs` is empty; mergers therefore return `Except (List Conflict) _`,
  where the error branch corresponds to Go's `(nil, err)` return.
-/

deriving instance DecidableEq for Except

namespace PodPresetWebhook

/-- A Go map, as a function to `Option`. -/
def GoMap (κ α : Type) := κ → Option α

/-- The empty Go map. -/
def GoMap.empty {κ α : Type} : GoMap κ α := fun _ => none

/-- Go map assignment `m[k] = v`. -/
def GoMap.insert {κ α : Type} [DecidableEq κ] (m : GoMap κ α) (k : κ) (v : α) : GoMap κ α :=
  fun k' => if k' = k then some v else m k'

/-- The map built by `for _, v := range l { m[key(v)] = v }` starting from the
empty map (later entries win). -/
def GoMap.ofList {κ α : Type} [DecidableEq κ] (key : α → κ) (l : List α) : GoMap κ α :=
  l.foldl (fun m v => m.insert (key v) v) GoMap.empty

/-- A Go slice: `none` is the nil slice, `some l` a non-nil slice. -/
abbrev GoSlice (α : Type) : Type := Option (List α)

/-- The elements of a Go slice (`range` over a nil slice sees nothing). -/
def sliceList {α : Type} : GoSlice α → List α
  | none => []
  | some l => l

theorem sliceList_none {α : Type} : sliceList (none : GoSlice α) = [] := rfl

theorem sliceList_some {α : Type} (l : List α) : sliceList (some l : GoSlice α) = l := rfl

/-- corev1.EnvVar: identity key `Name`; `Value`/`ValueFrom` collapsed into
`value`, compared by DeepEqual. -/
structure EnvVar where
  name : String
  value : String
deriving DecidableEq, Repr

/-- corev1.ConfigMapEnvSource: a LocalObjectReference `Name` plus `Optional *bool`. -/
structure ConfigMapEnvSource where
  name : String
  optional : Option Bool
deriving DecidableEq, Repr

/-- corev1.SecretEnvSource: a LocalObjectReference `Name` plus `Optional *bool`. -/
structure SecretEnvSource where
  name : String
  optional : Option Bool
deriving DecidableEq, Repr

/-- corev1.EnvFromSource. The field `pfx` embeds the Go field `Prefix`. -/
structure EnvFromSource where
  pfx : String
  configMapRef : Option ConfigMapEnvSource
  secretRef : Option SecretEnvSource
deriving DecidableEq, Repr

/-- corev1.Volume: identity key `Name`; the VolumeSource union collapsed into
`volumeSource`, compared by DeepEqual. -/
structure Volume where
  name : String
  volumeSource : String
deriving DecidableEq, Repr

/-- corev1.VolumeMount: identity keys `Name` and `MountPath`; the remaining
fields (ReadOnly, SubPath, ...) collapsed into `readOnly`, compared by
DeepEqual. -/
structure VolumeMount where
  name : String
  mountPath : String
  readOnly : Bool
deriving DecidableEq, Repr

/-- PodPresetSpec (api/v1alpha1): the four injectable attribute lists.  The
label selector is evaluated by `filterPodPresets` before the merge core runs
and is not part of the embedded state. -/
structure PodPresetSpec where
  env : List EnvVar
  envFrom : List EnvFromSource
  volumes : List Volume
  volumeMounts : List VolumeMount
deriving DecidableEq, Repr

/-- PodPreset: object name, resource version (used for the provenance
annotation value) and the spec. -/
structure PodPreset where
  name : String
  resourceVersion : String
  spec : PodPresetSpec
deriving DecidableEq, Repr

/-- corev1.Container, restricted to the fields the handler touches. -/
structure Container where
  env : GoSlice EnvVar
  envFrom : GoSlice EnvFromSource
  volumeMounts : GoSlice VolumeMount
deriving DecidableEq, Repr

/-- corev1.PodSpec, restricted to the fields the handler touches. -/
structure PodSpec where
  volumes : GoSlice Volume
  containers : List Container
  initContainers : List Container
deriving DecidableEq, Repr

/-- The pod's annotation map (`ObjectMeta.Annotations`), a nil-able Go
`map[string]string` embedded as an insertion-ordered association list. -/
abbrev AnnotMap : Type := Option (List (String × String))

/-- corev1.Pod, restricted to the fields the handler touches. -/
structure Pod where
  annots : AnnotMap
  spec : PodSpec
deriving DecidableEq, Repr

/-- One conflict error emitted by a merger (the formatted Go error message,
carrying the preset name and the two disagreeing values). -/
inductive Conflict where
  | env (ppName : String) (v found : EnvVar)
  | envFrom (ppName : String) (v found : EnvFromSource)
  | volume (ppName : String) (v found : Volume)
  | volumeMountName (ppName : String) (v found : VolumeMount)
  | volumeMountPath (ppName : String) (v found : VolumeMount)
deriving DecidableEq, Repr

/-- envFromMergeKey from handler.go. -/
structure EnvFromMergeKey where
  pfx : String
  configMapRefName : String
  secretRefName : String
deriving DecidableEq, Repr

/-- newEnvFromMergeKey from handler.go: nil refs contribute the zero value. -/
def newEnvFromMergeKey (e : EnvFromSource) : EnvFromMergeKey :=
  { pfx := e.pfx
    configMapRefName := match e.configMapRef with | some r => r.name | none => ""
    secretRefName := match e.secretRef with | some r => r.name | none => "" }

/-- State threaded through the mergeEnv loops: the identity index `origEnv`,
the output list `mergedEnv` and the accumulated conflicts `errs`. -/
structure EnvMergeState where
  origEnv : GoMap String EnvVar
  mergedEnv : List EnvVar
  errs : List Conflict

/-- Inner loop of mergeEnv: `for _, v := range pp.Spec.Env`. -/
def mergeEnvEntries (ppName : String) : EnvMergeState → List EnvVar → EnvMergeState
  | st, [] => st
  | st, v :: rest =>
    match st.origEnv v.name with
    | none =>
      mergeEnvEntries ppName
        { origEnv := st.origEnv.insert v.name v
          mergedEnv := st.mergedEnv ++ [v]
          errs := st.errs } rest
    | some found =>
      if found = v then mergeEnvEntries ppName st rest
      else mergeEnvEntries ppName { st with errs := st.errs ++ [Conflict.env ppName v found] } rest

/-- Outer loop of mergeEnv: `for _, pp := range podPresets`. -/
def mergeEnvPresets : EnvMergeState → List PodPreset → EnvMergeState
  | st, [] => st
  | st, pp :: rest => mergeEnvPresets (mergeEnvEntries pp.name st pp.spec.env) rest

/-- mergeEnv from handler.go: index the original env vars by name, copy them
into the output, then fold the presets' env vars over that state; on any
accumulated conflict return Go's `(nil, err)`. -/
def mergeEnv (envVars : GoSlice EnvVar) (podPresets : List PodPreset) :
    Except (List Conflict) (GoSlice EnvVar) :=
  let st := mergeEnvPresets
    { origEnv := GoMap.ofList EnvVar.name (sliceList envVars)
      mergedEnv := sliceList envVars
      errs := [] } podPresets
  if st.errs = [] then .ok (some st.mergedEnv) else .error st.errs

/-- State threaded through the mergeEnvFrom loops.  The index
`origEnvSources` is built once from the original list and, unlike the other
three mergers, never extended while iterating presets. -/
structure EnvFromMergeState where
  origEnvSources : GoMap EnvFromMergeKey EnvFromSource
  mergedEnvFrom : List EnvFromSource
  errs : List Conflict

/-- Inner loop of mergeEnvFrom: note the not-found branch appends without
registering the key in the index. -/
def mergeEnvFromEntries (ppName : String) : EnvFromMergeState → List EnvFromSource → EnvFromMergeState
  | st, [] => st
  | st, e :: rest =>
    match st.origEnvSources (newEnvFromMergeKey e) with
    | none =>
      mergeEnvFromEntries ppName { st with mergedEnvFrom := st.mergedEnvFrom ++ [e] } rest
    | some found =>
      if found = e then mergeEnvFromEntries ppName st rest
      else
        mergeEnvFromEntries ppName
          { st with errs := st.errs ++ [Conflict.envFrom ppName e found] } rest

/-- Outer loop of mergeEnvFrom. -/
def mergeEnvFromPresets : EnvFromMergeState → List PodPreset → EnvFromMergeState
  | st, [] => st
  | st, pp :: rest => mergeEnvFromPresets (mergeEnvFromEntries pp.name st pp.spec.envFrom) rest

/-- mergeEnvFrom from handler.go.  `var mergedEnvFrom []T` starts nil and is
only ever `append`ed to, so the returned slice is nil exactly when it has no
elements. -/
def mergeEnvFrom (envSources : GoSlice EnvFromSource) (podPresets : List PodPreset) :
    Except (List Conflict) (GoSlice EnvFromSource) :=
  let st := mergeEnvFromPresets
    { origEnvSources := GoMap.ofList newEnvFromMergeKey (sliceList envSources)
      mergedEnvFrom := sliceList envSources
      errs := [] } podPresets
  if st.errs = [] then
    .ok (if st.mergedEnvFrom = [] then none else some st.mergedEnvFrom)
  else .error st.errs

/-- State threaded through the mergeVolumeMounts loops: the name index, the
independent mount-path index, the output list and the conflicts. -/
structure VMMergeState where
  origVolumeMounts : GoMap String VolumeMount
  volumeMountsByPath : GoMap String VolumeMount
  mergedVolumeMounts : List VolumeMount
  errs : List Conflict

/-- Inner loop of mergeVolumeMounts: the name check (which governs appending
and registers new names) followed unconditionally by the path check (which
registers new paths). -/
def mergeVolumeMountsEntries (ppName : String) : VMMergeState → List VolumeMount → VMMergeState
  | st, [] => st
  | st, v :: rest =>
    let st₁ :=
      match st.origVolumeMounts v.name with
      | none =>
        { st with
          origVolumeMounts := st.origVolumeMounts.insert v.name v
          mergedVolumeMounts := st.mergedVolumeMounts ++ [v] }
      | some found =>
        if found = v then st
        else { st with errs := st.errs ++ [Conflict.volumeMountName ppName v found] }
    let st₂ :=
      match st₁.volumeMountsByPath v.mountPath with
      | none =>
        { st₁ with volumeMountsByPath := st₁.volumeMountsByPath.insert v.mountPath v }
      | some found =>
        if found = v then st₁
        else { st₁ with errs := st₁.errs ++ [Conflict.volumeMountPath ppName v found] }
    mergeVolumeMountsEntries ppName st₂ rest

/-- Outer loop of mergeVolumeMounts. -/
def mergeVolumeMountsPresets : VMMergeState → List PodPreset → VMMergeState
  | st, [] => st
  | st, pp :: rest => mergeVolumeMountsPresets (mergeVolumeMountsEntries pp.name st pp.spec.volumeMounts) rest

/-- mergeVolumeMounts from handler.go. -/
def mergeVolumeMounts (volumeMounts : GoSlice VolumeMount) (podPresets : List PodPreset) :
    Except (List Conflict) (GoSlice VolumeMount) :=
  let st := mergeVolumeMountsPresets
    { origVolumeMounts := GoMap.ofList VolumeMount.name (sliceList volumeMounts)
      volumeMountsByPath := GoMap.ofList VolumeMount.mountPath (sliceList volumeMounts)
      mergedVolumeMounts := sliceList volumeMounts
      errs := [] } podPresets
  if st.errs = [] then .ok (some st.mergedVolumeMounts) else .error st.errs

/-- State threaded through the mergeVolumes loops. -/
structure VolMergeState where
  origVolumes : GoMap String Volume
  mergedVolumes : List Volume
  errs : List Conflict

/-- Inner loop of mergeVolumes. -/
def mergeVolumesEntries (ppName : String) : VolMergeState → List Volume → VolMergeState
  | st, [] => st
  | st, v :: rest =>
    match st.origVolumes v.name with
    | none =>
      mergeVolumesEntries ppName
        { origVolumes := st.origVolumes.insert v.name v
          mergedVolumes := st.mergedVolumes ++ [v]
          errs := st.errs } rest
    | some found =>
      if found = v then mergeVolumesEntries ppName st rest
      else mergeVolumesEntries ppName { st with errs := st.errs ++ [Conflict.volume ppName v found] } rest

/-- Outer loop of mergeVolumes. -/
def mergeVolumesPresets : VolMergeState → List PodPreset → VolMergeState
  | st, [] => st
  | st, pp :: rest => mergeVolumesPresets (mergeVolumesEntries pp.name st pp.spec.volumes) rest

/-- mergeVolumes from handler.go: like mergeEnv but with the final
normalization `if len(mergedVolumes) == 0 { return nil, nil }`. -/
def mergeVolumes (volumes : GoSlice Volume) (podPresets : List PodPreset) :
    Except (List Conflict) (GoSlice Volume) :=
  let st := mergeVolumesPresets
    { origVolumes := GoMap.ofList Volume.name (sliceList volumes)
      mergedVolumes := sliceList volumes
      errs := [] } podPresets
  if st.errs = [] then
    if st.mergedVolumes = [] then .ok none else .ok (some st.mergedVolumes)
  else .error st.errs

/-- safeToApplyPodPresetsOnPod from handler.go: the conflict probe.  It runs
only the pod-level volumes merger; the returned list is the aggregated error
(`[]` is Go's nil error). -/
def safeToApplyPodPresetsOnPod (pod : Pod) (podPresets : List PodPreset) : List Conflict :=
  match mergeVolumes pod.spec.volumes podPresets with
  | .error e => e
  | .ok _ => []

/-- safeToApplyPodPresetsOnContainer from handler.go: probes mergeEnv and
mergeVolumeMounts for one container (mergeEnvFrom is not probed).  This
function has no caller in the handler. -/
def safeToApplyPodPresetsOnContainer (ctr : Container) (podPresets : List PodPreset) : List Conflict :=
  (match mergeEnv ctr.env podPresets with
   | .error e => e
   | .ok _ => []) ++
  (match mergeVolumeMounts ctr.volumeMounts podPresets with
   | .error e => e
   | .ok _ => [])

/-- The value of a Go merge result as seen by the applier: on error the Go
functions return `(nil, err)` and the applier keeps the nil slice. -/
def mergeValue {α : Type} : Except (List Conflict) (GoSlice α) → GoSlice α
  | .error _ => none
  | .ok l => l

/-- applyPodPresetsOnContainer from handler.go: rebinds the container's Env,
VolumeMounts and EnvFrom to the merge results, discarding merge errors. -/
def applyPodPresetsOnContainer (ctr : Container) (podPresets : List PodPreset) : Container :=
  { env := mergeValue (mergeEnv ctr.env podPresets)
    volumeMounts := mergeValue (mergeVolumeMounts ctr.volumeMounts podPresets)
    envFrom := mergeValue (mergeEnvFrom ctr.envFrom podPresets) }

/-- Go map assignment on the pod's nil-able annotation map: update the first
binding of the key in place, or append a new binding. -/
def upsert (l : List (String × String)) (k v : String) : List (String × String) :=
  match l with
  | [] => [(k, v)]
  | (k', v') :: t => if k' = k then (k, v) :: t else (k', v') :: upsert t k v

/-- The fixed annotation key prefix from handler.go. -/
def annotPrefix : String := "podpreset.admission.kubernetes.io"

/-- The provenance annotation key for one preset. -/
def annotKey (ppName : String) : String := annotPrefix ++ "/podpreset-" ++ ppName

/-- applyPodPresetsOnPod from handler.go: rebind the merged volumes, apply the
presets to every container and init container in place, then initialize the
annotation map if nil and stamp one provenance annotation per preset. -/
def applyPodPresetsOnPod (pod : Pod) (podPresets : List PodPreset) : Pod :=
  if podPresets.length = 0 then pod
  else
    { spec :=
        { volumes := mergeValue (mergeVolumes pod.spec.volumes podPresets)
          containers := pod.spec.containers.map (applyPodPresetsOnContainer · podPresets)
          initContainers := pod.spec.initContainers.map (applyPodPresetsOnContainer · podPresets) }
      annots :=
        some (podPresets.foldl (fun a pp => upsert a (annotKey pp.name) pp.resourceVersion)
          (match pod.annots with | none => [] | some a => a)) }

/-- The mutation section of Handle (handler.go lines 80-99), after decoding and
preset filtering: with no matching preset the pod is returned unchanged;
otherwise the probe result is computed but its response is discarded (the
source builds `admission.Allowed("")` without returning it), and
applyPodPresetsOnPod runs unconditionally. -/
def handleMutation (pod : Pod) (matchingPPs : List PodPreset) : Pod :=
  if matchingPPs.length = 0 then pod
  else
    let _conflicts := safeToApplyPodPresetsOnPod pod matchingPPs
    applyPodPresetsOnPod pod matchingPPs

/-!
Proof machinery.  The three registering mergers (env, volumes, and the
name axis of volume mounts) share one loop shape; `mapAfter`, `appendedOf`
and `errsOf` give closed forms for the three components of that loop's
state, generically in the key function.
-/

section KeyedMerge

variable {κ α : Type} [DecidableEq κ] [DecidableEq α]

/-- The identity index after the shared merge loop over tagged entries. -/
def mapAfter (key : α → κ) (m : GoMap κ α) : List (String × α) → GoMap κ α
  | [] => m
  | p :: t =>
    match m (key p.2) with
    | none => mapAfter key (m.insert (key p.2) p.2) t
    | some _ => mapAfter key m t

/-- The entries the shared merge loop appends to its output. -/
def appendedOf (key : α → κ) (m : GoMap κ α) : List (String × α) → List α
  | [] => []
  | p :: t =>
    match m (key p.2) with
    | none => p.2 :: appendedOf key (m.insert (key p.2) p.2) t
    | some _ => appendedOf key m t

/-- The conflicts the shared merge loop emits. -/
def errsOf (key : α → κ) (mk : String → α → α → Conflict) (m : GoMap κ α) :
    List (String × α) → List Conflict
  | [] => []
  | p :: t =>
    match m (key p.2) with
    | none => errsOf key mk (m.insert (key p.2) p.2) t
    | some found =>
      if found = p.2 then errsOf key mk m t else mk p.1 p.2 found :: errsOf key mk m t

variable (key : α → κ) (mk : String → α → α → Conflict)

theorem GoMap.insert_apply (m : GoMap κ α) (k : κ) (v : α) (k' : κ) :
    m.insert k v k' = if k' = k then some v else m k' := rfl

theorem mapAfter_append (m : GoMap κ α) (a b : List (String × α)) :
    mapAfter key m (a ++ b) = mapAfter key (mapAfter key m a) b := by
  induction a generalizing m with
  | nil => rfl
  | cons p t ih =>
    simp only [List.cons_append, mapAfter]
    cases m (key p.2) <;> simp [ih]

theorem appendedOf_append (m : GoMap κ α) (a b : List (String × α)) :
    appendedOf key m (a ++ b) = appendedOf key m a ++ appendedOf key (mapAfter key m a) b := by
  induction a generalizing m with
  | nil => rfl
  | cons p t ih =>
    simp only [List.cons_append, appendedOf, mapAfter]
    cases m (key p.2) <;> simp [ih]

theorem errsOf_append (m : GoMap κ α) (a b : List (String × α)) :
    errsOf key mk m (a ++ b) = errsOf key mk m a ++ errsOf key mk (mapAfter key m a) b := by
  induction a generalizing m with
  | nil => rfl
  | cons p t ih =>
    simp only [List.cons_append, errsOf, mapAfter]
    cases h : m (key p.2) with
    | none => simp [ih]
    | some found =>
      by_cases hf : found = p.2 <;> simp [hf, ih]

/-- Compatibility of a tagged entry list with an initial index: every entry
agrees with the indexed value under its key, and any two entries sharing an
unindexed key agree with each other.  This characterizes conflict-freedom of
the shared merge loop. -/
def Compat (m : GoMap κ α) (l : List (String × α)) : Prop :=
  (∀ p ∈ l, ∀ w, m (key p.2) = some w → p.2 = w) ∧
  (∀ p ∈ l, ∀ q ∈ l, key p.2 = key q.2 → m (key p.2) = none → p.2 = q.2)

theorem compat_cons_none {m : GoMap κ α} {p : String × α} {t : List (String × α)}
    (h : m (key p.2) = none) :
    Compat key (m.insert (key p.2) p.2) t ↔ Compat key m (p :: t) := by
  constructor
  · rintro ⟨c1, c2⟩
    refine ⟨?_, ?_⟩
    · rintro q hq w hw
      rcases List.mem_cons.mp hq with rfl | hq'
      · rw [h] at hw; cases hw
      · by_cases hk : key q.2 = key p.2
        · rw [hk, h] at hw; cases hw
        · have := c1 q hq' w
          rw [GoMap.insert_apply, if_neg hk] at this
          exact this hw
    · rintro q hq r hr hk hn
      rcases List.mem_cons.mp hq with rfl | hq' <;> rcases List.mem_cons.mp hr with rfl | hr'
      · rfl
      · have := c1 r hr' q.2
        rw [GoMap.insert_apply, ← hk, if_pos rfl] at this
        exact (this rfl).symm
      · have := c1 q hq' r.2
        rw [GoMap.insert_apply, hk, if_pos rfl] at this
        exact this rfl
      · by_cases hkp : key q.2 = key p.2
        · have h1 := c1 q hq' p.2
          rw [GoMap.insert_apply, if_pos hkp] at h1
          have h2 := c1 r hr' p.2
          rw [GoMap.insert_apply, ← hk, if_pos hkp] at h2
          rw [h1 rfl, h2 rfl]
        · have := c2 q hq' r hr' hk
          rw [GoMap.insert_apply, if_neg hkp] at this
          exact this hn
  · rintro ⟨d1, d2⟩
    refine ⟨?_, ?_⟩
    · rintro q hq w hw
      rw [GoMap.insert_apply] at hw
      by_cases hk : key q.2 = key p.2
      · rw [if_pos hk] at hw
        cases hw
        exact d2 q (List.mem_cons_of_mem _ hq) p (List.mem_cons_self p t) hk (by rw [hk, h])
      · rw [if_neg hk] at hw
        exact d1 q (List.mem_cons_of_mem _ hq) w hw
    · rintro q hq r hr hk hn
      rw [GoMap.insert_apply] at hn
      by_cases hkp : key q.2 = key p.2
      · rw [if_pos hkp] at hn; cases hn
      · rw [if_neg hkp] at hn
        exact d2 q (List.mem_cons_of_mem _ hq) r (List.mem_cons_of_mem _ hr) hk hn

theorem compat_cons_eq {m : GoMap κ α} {p : String × α} {t : List (String × α)}
    (h : m (key p.2) = some p.2) :
    Compat key m t ↔ Compat key m (p :: t) := by
  constructor
  · rintro ⟨c1, c2⟩
    refine ⟨?_, ?_⟩
    · rintro q hq w hw
      rcases List.mem_cons.mp hq with rfl | hq'
      · rw [h] at hw; cases hw; rfl
      · exact c1 q hq' w hw
    · rintro q hq r hr hk hn
      rcases List.mem_cons.mp hq with rfl | hq' <;> rcases List.mem_cons.mp hr with rfl | hr'
      · rfl
      · rw [h] at hn; cases hn
      · rw [hk, h] at hn; cases hn
      · exact c2 q hq' r hr' hk hn
  · rintro ⟨d1, d2⟩
    exact ⟨fun q hq => d1 q (List.mem_cons_of_mem _ hq),
      fun q hq r hr => d2 q (List.mem_cons_of_mem _ hq) r (List.mem_cons_of_mem _ hr)⟩

theorem not_compat_cons {m : GoMap κ α} {p : String × α} {t : List (String × α)} {found : α}
    (h : m (key p.2) = some found) (hf : found ≠ p.2) :
    ¬ Compat key m (p :: t) := by
  rintro ⟨c1, _⟩
  exact hf ((c1 p (List.mem_cons_self p t) found h).symm)

theorem errsOf_eq_nil_iff (m : GoMap κ α) (l : List (String × α)) :
    errsOf key mk m l = [] ↔ Compat key m l := by
  induction l generalizing m with
  | nil =>
    simp only [errsOf, true_iff]
    exact ⟨fun p hp => absurd hp (List.not_mem_nil p), fun p hp => absurd hp (List.not_mem_nil p)⟩
  | cons p t ih =>
    simp only [errsOf]
    cases h : m (key p.2) with
    | none =>
      rw [ih, compat_cons_none key h]
    | some found =>
      show (if found = p.2 then errsOf key mk m t
        else mk p.1 p.2 found :: errsOf key mk m t) = [] ↔ Compat key m (p :: t)
      by_cases hf : found = p.2
      · subst hf
        rw [if_pos rfl, ih, compat_cons_eq key h]
      · simp only [if_neg hf, List.cons_ne_nil, false_iff]
        exact not_compat_cons key h hf

theorem compat_of_cons {m : GoMap κ α} {p : String × α} {t : List (String × α)}
    (h : Compat key m (p :: t)) : Compat key m t :=
  ⟨fun q hq => h.1 q (List.mem_cons_of_mem _ hq),
    fun q hq r hr => h.2 q (List.mem_cons_of_mem _ hq) r (List.mem_cons_of_mem _ hr)⟩

theorem mem_appendedOf {m : GoMap κ α} {l : List (String × α)} {v : α}
    (hv : v ∈ appendedOf key m l) : (∃ n, (n, v) ∈ l) ∧ m (key v) = none := by
  induction l generalizing m with
  | nil => cases hv
  | cons p t ih =>
    rw [appendedOf] at hv
    cases h : m (key p.2) with
    | none =>
      rw [h] at hv
      rcases List.mem_cons.mp hv with rfl | hv'
      · exact ⟨⟨p.1, by simp⟩, h⟩
      · obtain ⟨⟨n, hn⟩, hm⟩ := ih hv'
        rw [GoMap.insert_apply] at hm
        by_cases hk : key v = key p.2
        · rw [if_pos hk] at hm; cases hm
        · rw [if_neg hk] at hm
          exact ⟨⟨n, List.mem_cons_of_mem _ hn⟩, hm⟩
    | some w =>
      rw [h] at hv
      obtain ⟨⟨n, hn⟩, hm⟩ := ih hv
      exact ⟨⟨n, List.mem_cons_of_mem _ hn⟩, hm⟩

theorem appendedOf_mem_of_compat {m : GoMap κ α} {l : List (String × α)} {n : String} {v : α}
    (hc : Compat key m l) (hm : (n, v) ∈ l) (hn : m (key v) = none) :
    v ∈ appendedOf key m l := by
  induction l generalizing m with
  | nil => cases hm
  | cons p t ih =>
    rw [appendedOf]
    cases h : m (key p.2) with
    | none =>
      rcases List.mem_cons.mp hm with rfl | hm'
      · exact List.mem_cons_self _ _
      · by_cases hk : key v = key p.2
        · have : v = p.2 := hc.2 (n, v) (List.mem_cons_of_mem _ hm') p (List.mem_cons_self p t) hk (by rw [hk] at hn ⊢; exact hn)
          rw [this]
          exact List.mem_cons_self _ _
        · refine List.mem_cons_of_mem _ (ih ((compat_cons_none key h).mpr hc) hm' ?_)
          rw [GoMap.insert_apply, if_neg hk]
          exact hn
    | some w =>
      rcases List.mem_cons.mp hm with rfl | hm'
      · rw [hn] at h; cases h
      · exact ih (compat_of_cons key hc) hm' hn

theorem key_mem_appendedOf {m : GoMap κ α} {l : List (String × α)} {k : κ} :
    k ∈ (appendedOf key m l).map key ↔ m k = none ∧ k ∈ l.map (fun p => key p.2) := by
  induction l generalizing m with
  | nil => simp [appendedOf]
  | cons p t ih =>
    rw [appendedOf]
    cases h : m (key p.2) with
    | none =>
      by_cases hk : k = key p.2
      · subst hk
        simp [h]
      · simp only [List.map_cons, List.mem_cons, ih, GoMap.insert_apply, if_neg hk]
        tauto
    | some w =>
      by_cases hk : k = key p.2
      · subst hk
        simp [ih, h]
      · simp only [ih, List.map_cons, List.mem_cons]
        tauto

theorem appendedOf_keys_nodup (m : GoMap κ α) (l : List (String × α)) :
    ((appendedOf key m l).map key).Nodup := by
  induction l generalizing m with
  | nil => simp [appendedOf]
  | cons p t ih =>
    rw [appendedOf]
    cases h : m (key p.2) with
    | none =>
      rw [List.map_cons, List.nodup_cons]
      refine ⟨fun hmem => ?_, ih _⟩
      have := (key_mem_appendedOf key).mp hmem
      rw [GoMap.insert_apply, if_pos rfl] at this
      cases this.1
    | some w => exact ih m

theorem appendedOf_nodup (m : GoMap κ α) (l : List (String × α)) :
    (appendedOf key m l).Nodup :=
  (appendedOf_keys_nodup key m l).of_map

theorem appendedOf_eq_nil_of_found {m : GoMap κ α} {l : List (String × α)}
    (h : ∀ p ∈ l, m (key p.2) ≠ none) : appendedOf key m l = [] := by
  induction l with
  | nil => rfl
  | cons p t ih =>
    rw [appendedOf]
    cases hm : m (key p.2) with
    | none => exact absurd hm (h p (List.mem_cons_self p t))
    | some w => exact ih (fun q hq => h q (List.mem_cons_of_mem _ hq))

theorem compat_perm {m : GoMap κ α} {l₁ l₂ : List (String × α)} (h : l₁.Perm l₂) :
    Compat key m l₁ ↔ Compat key m l₂ := by
  constructor
  · rintro ⟨c1, c2⟩
    exact ⟨fun p hp => c1 p (h.mem_iff.mpr hp),
      fun p hp q hq => c2 p (h.mem_iff.mpr hp) q (h.mem_iff.mpr hq)⟩
  · rintro ⟨c1, c2⟩
    exact ⟨fun p hp => c1 p (h.mem_iff.mp hp),
      fun p hp q hq => c2 p (h.mem_iff.mp hp) q (h.mem_iff.mp hq)⟩

theorem appendedOf_perm {m : GoMap κ α} {l₁ l₂ : List (String × α)}
    (hc : Compat key m l₁) (h : l₁.Perm l₂) :
    (appendedOf key m l₁).Perm (appendedOf key m l₂) := by
  have hc₂ : Compat key m l₂ := (compat_perm key h).mp hc
  refine (List.perm_ext_iff_of_nodup (appendedOf_nodup key m l₁) (appendedOf_nodup key m l₂)).mpr ?_
  intro v
  constructor
  · intro hv
    obtain ⟨⟨n, hn⟩, hm⟩ := mem_appendedOf key hv
    exact appendedOf_mem_of_compat key hc₂ (h.mem_iff.mp hn) hm
  · intro hv
    obtain ⟨⟨n, hn⟩, hm⟩ := mem_appendedOf key hv
    exact appendedOf_mem_of_compat key hc (h.mem_iff.mpr hn) hm

theorem foldl_insert_apply (b : List α) (m : GoMap κ α) (k : κ) :
    (b.foldl (fun m v => m.insert (key v) v) m) k =
      match GoMap.ofList key b k with
      | some w => some w
      | none => m k := by
  induction b generalizing m with
  | nil => rfl
  | cons v b' ih =>
    have hv : GoMap.ofList key (v :: b') k =
        match GoMap.ofList key b' k with
        | some w => some w
        | none => GoMap.empty.insert (key v) v k := by
      show ((v :: b').foldl (fun m v => m.insert (key v) v) GoMap.empty) k = _
      rw [List.foldl_cons]
      exact ih _
    rw [List.foldl_cons, ih, hv]
    cases hb : GoMap.ofList key b' k with
    | some w => rfl
    | none =>
      show m.insert (key v) v k = _
      rw [GoMap.insert_apply, GoMap.insert_apply]
      by_cases hk : k = key v <;> simp [hk, GoMap.empty]

theorem ofList_append_apply (a b : List α) (k : κ) :
    GoMap.ofList key (a ++ b) k =
      match GoMap.ofList key b k with
      | some w => some w
      | none => GoMap.ofList key a k := by
  show ((a ++ b).foldl (fun m v => m.insert (key v) v) GoMap.empty) k = _
  rw [List.foldl_append]
  exact foldl_insert_apply key b _ k

theorem ofList_cons_apply (v : α) (t : List α) (k : κ) :
    GoMap.ofList key (v :: t) k =
      match GoMap.ofList key t k with
      | some w => some w
      | none => if k = key v then some v else none := by
  have := ofList_append_apply key [v] t k
  rw [List.singleton_append] at this
  rw [this]
  cases GoMap.ofList key t k with
  | some w => rfl
  | none =>
    show GoMap.ofList key [v] k = _
    show GoMap.empty.insert (key v) v k = _
    rw [GoMap.insert_apply]
    by_cases hk : k = key v <;> simp [hk, GoMap.empty]

theorem ofList_mem {l : List α} {k : κ} {w : α}
    (h : GoMap.ofList key l k = some w) : w ∈ l ∧ key w = k := by
  induction l with
  | nil => cases h
  | cons v t ih =>
    rw [ofList_cons_apply] at h
    cases ht : GoMap.ofList key t k with
    | some u =>
      rw [ht] at h
      cases h
      obtain ⟨hmem, hkey⟩ := ih ht
      exact ⟨List.mem_cons_of_mem _ hmem, hkey⟩
    | none =>
      rw [ht] at h
      by_cases hk : k = key v
      · rw [if_pos hk] at h
        cases h
        exact ⟨List.mem_cons_self _ _, hk.symm⟩
      · rw [if_neg hk] at h; cases h

theorem ofList_eq_none_iff {l : List α} {k : κ} :
    GoMap.ofList key l k = none ↔ k ∉ l.map key := by
  induction l with
  | nil => simp [GoMap.ofList, GoMap.empty]
  | cons v t ih =>
    rw [ofList_cons_apply]
    cases ht : GoMap.ofList key t k with
    | some u =>
      have hmem : k ∈ t.map key := by
        by_contra hc
        have h0 := ih.mpr hc
        rw [h0] at ht
        cases ht
      simp only [ht, List.map_cons, List.mem_cons]
      simp [hmem]
    | none =>
      by_cases hk : k = key v
      · simp [hk]
      · simp only [if_neg hk, List.map_cons, List.mem_cons, true_iff]
        intro hcon
        rcases hcon with h | h
        · exact hk h
        · exact (ih.mp ht) h

theorem ofList_nodup_mem {l : List α} {v : α} (hnd : (l.map key).Nodup) (hv : v ∈ l) :
    GoMap.ofList key l (key v) = some v := by
  induction l with
  | nil => cases hv
  | cons u t ih =>
    rw [List.map_cons, List.nodup_cons] at hnd
    rw [ofList_cons_apply]
    rcases List.mem_cons.mp hv with rfl | hv'
    · have ht : GoMap.ofList key t (key v) = none :=
        (ofList_eq_none_iff key).mpr hnd.1
      rw [ht, if_pos rfl]
    · rw [ih hnd.2 hv']

theorem compat_extend {orig app : List α} {l : List (String × α)}
    (happ : ∀ v ∈ app, ∃ n, (n, v) ∈ l)
    (hc : Compat key (GoMap.ofList key orig) l) :
    Compat key (GoMap.ofList key (orig ++ app)) l := by
  obtain ⟨c1, c2⟩ := hc
  constructor
  · rintro p hp w hw
    rw [ofList_append_apply] at hw
    cases ha : GoMap.ofList key app (key p.2) with
    | some u =>
      rw [ha] at hw
      cases hw
      obtain ⟨hu_mem, hu_key⟩ := ofList_mem key ha
      obtain ⟨n, hnl⟩ := happ w hu_mem
      cases hm : GoMap.ofList key orig (key p.2) with
      | some z =>
        have h₁ : p.2 = z := c1 p hp z hm
        have h₂ : w = z := c1 (n, w) hnl z (by rw [show key (n, w).2 = key p.2 from hu_key, hm])
        rw [h₁, h₂]
      | none =>
        exact c2 p hp (n, w) hnl (by rw [show key (n, w).2 = key p.2 from hu_key]) hm
    | none =>
      rw [ha] at hw
      exact c1 p hp w hw
  · rintro p hp q hq hk hn
    rw [ofList_append_apply] at hn
    cases ha : GoMap.ofList key app (key p.2) with
    | some u => rw [ha] at hn; cases hn
    | none =>
      rw [ha] at hn
      exact c2 p hp q hq hk hn

theorem appendedOf_restab {orig app : List α} {l : List (String × α)}
    (happ : ∀ p ∈ l, GoMap.ofList key orig (key p.2) = none → key p.2 ∈ app.map key) :
    appendedOf key (GoMap.ofList key (orig ++ app)) l = [] := by
  apply appendedOf_eq_nil_of_found
  intro p hp hcontra
  rw [ofList_append_apply] at hcontra
  cases ha : GoMap.ofList key app (key p.2) with
  | some u => rw [ha] at hcontra; cases hcontra
  | none =>
    rw [ha] at hcontra
    exact (ofList_eq_none_iff key).mp ha (happ p hp hcontra)

end KeyedMerge

/-- The entries contributed by a preset list in iteration order, each tagged
with its preset's name. -/
def presetPairs {α : Type} (f : PodPresetSpec → List α) : List PodPreset → List (String × α)
  | [] => []
  | pp :: t => (f pp.spec).map (fun v => (pp.name, v)) ++ presetPairs f t

theorem presetPairs_perm {α : Type} (f : PodPresetSpec → List α) {pps₁ pps₂ : List PodPreset}
    (h : pps₁.Perm pps₂) : (presetPairs f pps₁).Perm (presetPairs f pps₂) := by
  induction h with
  | nil => exact List.Perm.refl _
  | cons pp _ ih => exact ih.append_left _
  | swap pp₁ pp₂ t =>
    simp only [presetPairs, ← List.append_assoc]
    exact (List.perm_append_comm.append_right _)
  | trans _ _ ih₁ ih₂ => exact ih₁.trans ih₂

theorem mergeEnvEntries_decomp (ppName : String) (m : GoMap String EnvVar)
    (g : List EnvVar) (e : List Conflict) (l : List EnvVar) :
    mergeEnvEntries ppName ⟨m, g, e⟩ l =
      ⟨mapAfter EnvVar.name m (l.map (fun v => (ppName, v))),
       g ++ appendedOf EnvVar.name m (l.map (fun v => (ppName, v))),
       e ++ errsOf EnvVar.name Conflict.env m (l.map (fun v => (ppName, v)))⟩ := by
  induction l generalizing m g e with
  | nil => simp [mergeEnvEntries, mapAfter, appendedOf, errsOf]
  | cons v t ih =>
    simp only [mergeEnvEntries, List.map_cons, mapAfter, appendedOf, errsOf]
    cases h : m v.name with
    | none =>
      rw [ih]
      simp
    | some found =>
      simp only []
      by_cases hf : found = v
      · subst hf
        rw [if_pos rfl, if_pos rfl, ih]
      · rw [if_neg hf, if_neg hf, ih]
        simp

theorem mergeEnvPresets_decomp (m : GoMap String EnvVar) (g : List EnvVar)
    (e : List Conflict) (pps : List PodPreset) :
    mergeEnvPresets ⟨m, g, e⟩ pps =
      ⟨mapAfter EnvVar.name m (presetPairs PodPresetSpec.env pps),
       g ++ appendedOf EnvVar.name m (presetPairs PodPresetSpec.env pps),
       e ++ errsOf EnvVar.name Conflict.env m (presetPairs PodPresetSpec.env pps)⟩ := by
  induction pps generalizing m g e with
  | nil => simp [mergeEnvPresets, presetPairs, mapAfter, appendedOf, errsOf]
  | cons pp t ih =>
    rw [mergeEnvPresets, mergeEnvEntries_decomp, ih]
    simp [presetPairs, mapAfter_append, appendedOf_append, errsOf_append]

/-- Closed form of mergeEnv: conflicts and appended entries as functions of the
initial index and the flattened tagged preset entries. -/
theorem mergeEnv_spec (s : GoSlice EnvVar) (pps : List PodPreset) :
    mergeEnv s pps =
      (if errsOf EnvVar.name Conflict.env (GoMap.ofList EnvVar.name (sliceList s))
          (presetPairs PodPresetSpec.env pps) = []
       then .ok (some (sliceList s ++
          appendedOf EnvVar.name (GoMap.ofList EnvVar.name (sliceList s))
            (presetPairs PodPresetSpec.env pps)))
       else .error (errsOf EnvVar.name Conflict.env (GoMap.ofList EnvVar.name (sliceList s))
          (presetPairs PodPresetSpec.env pps))) := by
  unfold mergeEnv
  rw [mergeEnvPresets_decomp]
  simp

theorem mergeVolumesEntries_decomp (ppName : String) (m : GoMap String Volume)
    (g : List Volume) (e : List Conflict) (l : List Volume) :
    mergeVolumesEntries ppName ⟨m, g, e⟩ l =
      ⟨mapAfter Volume.name m (l.map (fun v => (ppName, v))),
       g ++ appendedOf Volume.name m (l.map (fun v => (ppName, v))),
       e ++ errsOf Volume.name Conflict.volume m (l.map (fun v => (ppName, v)))⟩ := by
  induction l generalizing m g e with
  | nil => simp [mergeVolumesEntries, mapAfter, appendedOf, errsOf]
  | cons v t ih =>
    simp only [mergeVolumesEntries, List.map_cons, mapAfter, appendedOf, errsOf]
    cases h : m v.name with
    | none =>
      rw [ih]
      simp
    | some found =>
      simp only []
      by_cases hf : found = v
      · subst hf
        rw [if_pos rfl, if_pos rfl, ih]
      · rw [if_neg hf, if_neg hf, ih]
        simp

theorem mergeVolumesPresets_decomp (m : GoMap String Volume) (g : List Volume)
    (e : List Conflict) (pps : List PodPreset) :
    mergeVolumesPresets ⟨m, g, e⟩ pps =
      ⟨mapAfter Volume.name m (presetPairs PodPresetSpec.volumes pps),
       g ++ appendedOf Volume.name m (presetPairs PodPresetSpec.volumes pps),
       e ++ errsOf Volume.name Conflict.volume m (presetPairs PodPresetSpec.volumes pps)⟩ := by
  induction pps generalizing m g e with
  | nil => simp [mergeVolumesPresets, presetPairs, mapAfter, appendedOf, errsOf]
  | cons pp t ih =>
    rw [mergeVolumesPresets, mergeVolumesEntries_decomp, ih]
    simp [presetPairs, mapAfter_append, appendedOf_append, errsOf_append]

/-- Closed form of mergeVolumes, including the empty-result normalization. -/
theorem mergeVolumes_spec (s : GoSlice Volume) (pps : List PodPreset) :
    mergeVolumes s pps =
      (if errsOf Volume.name Conflict.volume (GoMap.ofList Volume.name (sliceList s))
          (presetPairs PodPresetSpec.volumes pps) = []
       then (if sliceList s ++
              appendedOf Volume.name (GoMap.ofList Volume.name (sliceList s))
                (presetPairs PodPresetSpec.volumes pps) = []
             then .ok none
             else .ok (some (sliceList s ++
              appendedOf Volume.name (GoMap.ofList Volume.name (sliceList s))
                (presetPairs PodPresetSpec.volumes pps))))
       else .error (errsOf Volume.name Conflict.volume (GoMap.ofList Volume.name (sliceList s))
          (presetPairs PodPresetSpec.volumes pps))) := by
  unfold mergeVolumes
  rw [mergeVolumesPresets_decomp]
  simp

/-- The conflicts emitted by the mergeVolumeMounts loop: for each entry, the
name-axis check followed by the independent path-axis check. -/
def vmErrsOf (nm pm : GoMap String VolumeMount) : List (String × VolumeMount) → List Conflict
  | [] => []
  | p :: t =>
    (match nm p.2.name with
     | none => []
     | some found => if found = p.2 then [] else [Conflict.volumeMountName p.1 p.2 found]) ++
    (match pm p.2.mountPath with
     | none => []
     | some found => if found = p.2 then [] else [Conflict.volumeMountPath p.1 p.2 found]) ++
    vmErrsOf
      (match nm p.2.name with
       | none => nm.insert p.2.name p.2
       | some _ => nm)
      (match pm p.2.mountPath with
       | none => pm.insert p.2.mountPath p.2
       | some _ => pm) t

theorem vmErrsOf_append (nm pm : GoMap String VolumeMount) (a b : List (String × VolumeMount)) :
    vmErrsOf nm pm (a ++ b) =
      vmErrsOf nm pm a ++
        vmErrsOf (mapAfter VolumeMount.name nm a) (mapAfter VolumeMount.mountPath pm a) b := by
  induction a generalizing nm pm with
  | nil => simp [vmErrsOf, mapAfter]
  | cons p t ih =>
    simp only [List.cons_append, vmErrsOf, mapAfter]
    cases h1 : nm p.2.name <;> cases h2 : pm p.2.mountPath <;>
      simp [ih]

theorem vmErrsOf_eq_nil_iff (nm pm : GoMap String VolumeMount) (l : List (String × VolumeMount)) :
    vmErrsOf nm pm l = [] ↔
      (errsOf VolumeMount.name Conflict.volumeMountName nm l = [] ∧
       errsOf VolumeMount.mountPath Conflict.volumeMountPath pm l = []) := by
  induction l generalizing nm pm with
  | nil => simp [vmErrsOf, errsOf]
  | cons p t ih =>
    simp only [vmErrsOf, errsOf]
    cases h1 : nm p.2.name with
    | none =>
      cases h2 : pm p.2.mountPath with
      | none => simpa using ih _ _
      | some found2 =>
        by_cases hf2 : found2 = p.2
        · simpa [hf2] using ih _ _
        · simp [hf2, ih]
    | some found1 =>
      by_cases hf1 : found1 = p.2
      · cases h2 : pm p.2.mountPath with
        | none => simpa [hf1] using ih _ _
        | some found2 =>
          by_cases hf2 : found2 = p.2
          · simpa [hf1, hf2] using ih _ _
          · simp [hf1, hf2, ih]
      · simp [hf1]

theorem mergeVolumeMountsEntries_decomp (ppName : String) (nm pm : GoMap String VolumeMount)
    (g : List VolumeMount) (e : List Conflict) (l : List VolumeMount) :
    mergeVolumeMountsEntries ppName ⟨nm, pm, g, e⟩ l =
      ⟨mapAfter VolumeMount.name nm (l.map (fun v => (ppName, v))),
       mapAfter VolumeMount.mountPath pm (l.map (fun v => (ppName, v))),
       g ++ appendedOf VolumeMount.name nm (l.map (fun v => (ppName, v))),
       e ++ vmErrsOf nm pm (l.map (fun v => (ppName, v)))⟩ := by
  induction l generalizing nm pm g e with
  | nil => simp [mergeVolumeMountsEntries, mapAfter, appendedOf, vmErrsOf]
  | cons v t ih =>
    simp only [mergeVolumeMountsEntries, List.map_cons, mapAfter, appendedOf, vmErrsOf]
    cases h1 : nm v.name with
    | none =>
      simp only []
      cases h2 : pm v.mountPath with
      | none =>
        rw [ih]
        simp
      | some found2 =>
        simp only []
        by_cases hf2 : found2 = v
        · rw [if_pos hf2, if_pos hf2, ih]
          simp
        · rw [if_neg hf2, if_neg hf2, ih]
          simp
    | some found1 =>
      simp only []
      by_cases hf1 : found1 = v
      · rw [if_pos hf1, if_pos hf1]
        simp only []
        cases h2 : pm v.mountPath with
        | none =>
          rw [ih]
          simp
        | some found2 =>
          simp only []
          by_cases hf2 : found2 = v
          · rw [if_pos hf2, if_pos hf2, ih]
            simp
          · rw [if_neg hf2, if_neg hf2, ih]
            simp
      · rw [if_neg hf1, if_neg hf1]
        simp only []
        cases h2 : pm v.mountPath with
        | none =>
          rw [ih]
          simp
        | some found2 =>
          simp only []
          by_cases hf2 : found2 = v
          · rw [if_pos hf2, if_pos hf2, ih]
            simp
          · rw [if_neg hf2, if_neg hf2, ih]
            simp

theorem mergeVolumeMountsPresets_decomp (nm pm : GoMap String VolumeMount)
    (g : List VolumeMount) (e : List Conflict) (pps : List PodPreset) :
    mergeVolumeMountsPresets ⟨nm, pm, g, e⟩ pps =
      ⟨mapAfter VolumeMount.name nm (presetPairs PodPresetSpec.volumeMounts pps),
       mapAfter VolumeMount.mountPath pm (presetPairs PodPresetSpec.volumeMounts pps),
       g ++ appendedOf VolumeMount.name nm (presetPairs PodPresetSpec.volumeMounts pps),
       e ++ vmErrsOf nm pm (presetPairs PodPresetSpec.volumeMounts pps)⟩ := by
  induction pps generalizing nm pm g e with
  | nil => simp [mergeVolumeMountsPresets, presetPairs, mapAfter, appendedOf, vmErrsOf]
  | cons pp t ih =>
    rw [mergeVolumeMountsPresets, mergeVolumeMountsEntries_decomp, ih]
    simp [presetPairs, mapAfter_append, appendedOf_append, vmErrsOf_append]

/-- Closed form of mergeVolumeMounts. -/
theorem mergeVolumeMounts_spec (s : GoSlice VolumeMount) (pps : List PodPreset) :
    mergeVolumeMounts s pps =
      (if vmErrsOf (GoMap.ofList VolumeMount.name (sliceList s))
          (GoMap.ofList VolumeMount.mountPath (sliceList s))
          (presetPairs PodPresetSpec.volumeMounts pps) = []
       then .ok (some (sliceList s ++
          appendedOf VolumeMount.name (GoMap.ofList VolumeMount.name (sliceList s))
            (presetPairs PodPresetSpec.volumeMounts pps)))
       else .error (vmErrsOf (GoMap.ofList VolumeMount.name (sliceList s))
          (GoMap.ofList VolumeMount.mountPath (sliceList s))
          (presetPairs PodPresetSpec.volumeMounts pps))) := by
  unfold mergeVolumeMounts
  rw [mergeVolumeMountsPresets_decomp]
  simp

/-- The entries the mergeEnvFrom loop appends: every preset entry whose merge
key is absent from the (static) original index, duplicates included. -/
def efAppendedOf (m : GoMap EnvFromMergeKey EnvFromSource) :
    List (String × EnvFromSource) → List EnvFromSource
  | [] => []
  | p :: t =>
    match m (newEnvFromMergeKey p.2) with
    | none => p.2 :: efAppendedOf m t
    | some _ => efAppendedOf m t

/-- The conflicts the mergeEnvFrom loop emits (only against the original
index, never between presets). -/
def efErrsOf (m : GoMap EnvFromMergeKey EnvFromSource) :
    List (String × EnvFromSource) → List Conflict
  | [] => []
  | p :: t =>
    match m (newEnvFromMergeKey p.2) with
    | none => efErrsOf m t
    | some found =>
      if found = p.2 then efErrsOf m t else Conflict.envFrom p.1 p.2 found :: efErrsOf m t

theorem efAppendedOf_append (m : GoMap EnvFromMergeKey EnvFromSource)
    (a b : List (String × EnvFromSource)) :
    efAppendedOf m (a ++ b) = efAppendedOf m a ++ efAppendedOf m b := by
  induction a with
  | nil => rfl
  | cons p t ih =>
    simp only [List.cons_append, efAppendedOf]
    cases m (newEnvFromMergeKey p.2) <;> simp [ih]

theorem efErrsOf_append (m : GoMap EnvFromMergeKey EnvFromSource)
    (a b : List (String × EnvFromSource)) :
    efErrsOf m (a ++ b) = efErrsOf m a ++ efErrsOf m b := by
  induction a with
  | nil => rfl
  | cons p t ih =>
    simp only [List.cons_append, efErrsOf]
    cases h : m (newEnvFromMergeKey p.2) with
    | none => simp [ih]
    | some found => by_cases hf : found = p.2 <;> simp [hf, ih]

theorem efErrsOf_eq_nil_iff (m : GoMap EnvFromMergeKey EnvFromSource)
    (l : List (String × EnvFromSource)) :
    efErrsOf m l = [] ↔
      ∀ p ∈ l, ∀ w, m (newEnvFromMergeKey p.2) = some w → p.2 = w := by
  induction l with
  | nil => simp [efErrsOf]
  | cons p t ih =>
    simp only [efErrsOf]
    cases h : m (newEnvFromMergeKey p.2) with
    | none =>
      rw [ih]
      constructor
      · intro hall q hq w hw
        rcases List.mem_cons.mp hq with rfl | hq'
        · rw [h] at hw; cases hw
        · exact hall q hq' w hw
      · intro hall q hq w hw
        exact hall q (List.mem_cons_of_mem _ hq) w hw
    | some found =>
      simp only []
      by_cases hf : found = p.2
      · rw [if_pos hf, ih]
        constructor
        · intro hall q hq w hw
          rcases List.mem_cons.mp hq with rfl | hq'
          · rw [h] at hw; cases hw; exact hf.symm
          · exact hall q hq' w hw
        · intro hall q hq w hw
          exact hall q (List.mem_cons_of_mem _ hq) w hw
      · simp only [if_neg hf, List.cons_ne_nil, false_iff]
        intro hall
        exact hf ((hall p (List.mem_cons_self p t) found h).symm)

theorem efAppendedOf_eq (m : GoMap EnvFromMergeKey EnvFromSource)
    (l : List (String × EnvFromSource)) :
    efAppendedOf m l =
      (l.filter (fun p => (m (newEnvFromMergeKey p.2)).isNone)).map Prod.snd := by
  induction l with
  | nil => rfl
  | cons p t ih =>
    rw [efAppendedOf]
    cases h : m (newEnvFromMergeKey p.2) with
    | none => simp [List.filter_cons, h, ih]
    | some w => simp [List.filter_cons, h, ih]

theorem mem_efAppendedOf {m : GoMap EnvFromMergeKey EnvFromSource}
    {l : List (String × EnvFromSource)} {v : EnvFromSource} :
    v ∈ efAppendedOf m l ↔ (∃ n, (n, v) ∈ l) ∧ m (newEnvFromMergeKey v) = none := by
  rw [efAppendedOf_eq]
  simp only [List.mem_map, List.mem_filter, Option.isNone_iff_eq_none]
  constructor
  · rintro ⟨p, ⟨hpl, hm⟩, rfl⟩
    exact ⟨⟨p.1, by simpa using hpl⟩, hm⟩
  · rintro ⟨⟨n, hn⟩, hm⟩
    exact ⟨(n, v), ⟨hn, hm⟩, rfl⟩

theorem mergeEnvFromEntries_decomp (ppName : String) (m : GoMap EnvFromMergeKey EnvFromSource)
    (g : List EnvFromSource) (e : List Conflict) (l : List EnvFromSource) :
    mergeEnvFromEntries ppName ⟨m, g, e⟩ l =
      ⟨m, g ++ efAppendedOf m (l.map (fun v => (ppName, v))),
       e ++ efErrsOf m (l.map (fun v => (ppName, v)))⟩ := by
  induction l generalizing g e with
  | nil => simp [mergeEnvFromEntries, efAppendedOf, efErrsOf]
  | cons v t ih =>
    simp only [mergeEnvFromEntries, List.map_cons, efAppendedOf, efErrsOf]
    cases h : m (newEnvFromMergeKey v) with
    | none =>
      rw [ih]
      simp
    | some found =>
      simp only []
      by_cases hf : found = v
      · subst hf
        rw [if_pos rfl, if_pos rfl, ih]
      · rw [if_neg hf, if_neg hf, ih]
        simp

theorem mergeEnvFromPresets_decomp (m : GoMap EnvFromMergeKey EnvFromSource)
    (g : List EnvFromSource) (e : List Conflict) (pps : List PodPreset) :
    mergeEnvFromPresets ⟨m, g, e⟩ pps =
      ⟨m, g ++ efAppendedOf m (presetPairs PodPresetSpec.envFrom pps),
       e ++ efErrsOf m (presetPairs PodPresetSpec.envFrom pps)⟩ := by
  induction pps generalizing g e with
  | nil => simp [mergeEnvFromPresets, presetPairs, efAppendedOf, efErrsOf]
  | cons pp t ih =>
    rw [mergeEnvFromPresets, mergeEnvFromEntries_decomp, ih]
    simp [presetPairs, efAppendedOf_append, efErrsOf_append]

/-- Closed form of mergeEnvFrom, including its nil-when-empty output shape. -/
theorem mergeEnvFrom_spec (s : GoSlice EnvFromSource) (pps : List PodPreset) :
    mergeEnvFrom s pps =
      (if efErrsOf (GoMap.ofList newEnvFromMergeKey (sliceList s))
          (presetPairs PodPresetSpec.envFrom pps) = []
       then .ok (if sliceList s ++ efAppendedOf (GoMap.ofList newEnvFromMergeKey (sliceList s))
                    (presetPairs PodPresetSpec.envFrom pps) = []
                 then none
                 else some (sliceList s ++ efAppendedOf (GoMap.ofList newEnvFromMergeKey (sliceList s))
                    (presetPairs PodPresetSpec.envFrom pps)))
       else .error (efErrsOf (GoMap.ofList newEnvFromMergeKey (sliceList s))
          (presetPairs PodPresetSpec.envFrom pps))) := by
  unfold mergeEnvFrom
  rw [mergeEnvFromPresets_decomp]
  simp

theorem presetPairs_eq_nil {α : Type} {f : PodPresetSpec → List α} {pps : List PodPreset}
    (h : ∀ pp ∈ pps, f pp.spec = []) : presetPairs f pps = [] := by
  induction pps with
  | nil => rfl
  | cons pp t ih =>
    simp [presetPairs, h pp (List.mem_cons_self pp t),
      ih (fun q hq => h q (List.mem_cons_of_mem _ hq))]

theorem presetPairs_mem {α : Type} {f : PodPresetSpec → List α} {pps : List PodPreset}
    {pp : PodPreset} {v : α} (hpp : pp ∈ pps) (hv : v ∈ f pp.spec) :
    (pp.name, v) ∈ presetPairs f pps := by
  induction pps with
  | nil => cases hpp
  | cons q t ih =>
    rw [presetPairs]
    rcases List.mem_cons.mp hpp with rfl | hpp'
    · exact List.mem_append_left _ (List.mem_map_of_mem _ hv)
    · exact List.mem_append_right _ (ih hpp')

theorem mergeVolumes_nil_not_error (s : GoSlice Volume) (e : List Conflict) :
    mergeVolumes s [] ≠ .error e := by
  intro h
  rw [mergeVolumes_spec] at h
  simp only [presetPairs, errsOf, appendedOf, List.append_nil, if_pos rfl] at h
  by_cases hs : sliceList s = [] <;> simp [hs] at h

/-- Claim C1: the spec requires that when the conflict probe reports a
conflict, Handle returns the target unchanged with nothing injected and no
provenance annotations.  In the code the `admission.Allowed` response built in
the conflict branch is discarded (the `return` is missing), so the mutation
runs anyway: on this input the pod's conflicting volume list is replaced by
nil and a provenance annotation is stamped. -/
theorem claim_C1 :
    safeToApplyPodPresetsOnPod ⟨none, ⟨some [⟨"v", "a"⟩], [], []⟩⟩
        [⟨"P1", "1", ⟨[], [], [⟨"v", "b"⟩], []⟩⟩] =
      [Conflict.volume "P1" ⟨"v", "b"⟩ ⟨"v", "a"⟩] ∧
    handleMutation ⟨none, ⟨some [⟨"v", "a"⟩], [], []⟩⟩
        [⟨"P1", "1", ⟨[], [], [⟨"v", "b"⟩], []⟩⟩] =
      ⟨some [("podpreset.admission.kubernetes.io/podpreset-P1", "1")], ⟨none, [], []⟩⟩ := by
  decide

/-- Claim C3: the spec requires the probe to run the per-container Env,
EnvFrom and VolumeMounts mergers; the code's safeToApplyPodPresetsOnPod only
probes pod-level volumes (safeToApplyPodPresetsOnContainer is never called,
and even it omits EnvFrom).  On this input the probe reports no conflict while
the container's env merge conflicts. -/
theorem claim_C3 :
    safeToApplyPodPresetsOnPod ⟨none, ⟨none, [⟨some [⟨"FOO", "a"⟩], none, none⟩], []⟩⟩
        [⟨"P1", "1", ⟨[⟨"FOO", "z"⟩], [], [], []⟩⟩] = [] ∧
    mergeEnv (some [⟨"FOO", "a"⟩]) [⟨"P1", "1", ⟨[⟨"FOO", "z"⟩], [], [], []⟩⟩] =
      .error [Conflict.env "P1" ⟨"FOO", "z"⟩ ⟨"FOO", "a"⟩] ∧
    safeToApplyPodPresetsOnContainer ⟨some [⟨"FOO", "a"⟩], none, none⟩
        [⟨"P1", "1", ⟨[⟨"FOO", "z"⟩], [], [], []⟩⟩] =
      [Conflict.env "P1" ⟨"FOO", "z"⟩ ⟨"FOO", "a"⟩] := by
  decide

/-- Claim C2 counterexample: applying a preset whose env var FOO collides with
the container's FOO with a different value does not keep the original
entries — the applier rebinds Env to the nil slice returned by the failed
merge, so the pre-existing entry is removed. -/
theorem claim_C2_counterexample :
    applyPodPresetsOnContainer ⟨some [⟨"FOO", "a"⟩], none, none⟩
        [⟨"P1", "1", ⟨[⟨"FOO", "z"⟩], [], [], []⟩⟩] =
      ⟨none, none, some []⟩ := by
  decide

/-- Claim C2 (amended): the applier is total, and whenever a container
attribute merge reports no conflict the merged list extends the container's
original list (original entries are preserved in place, equal-value
collisions keep the original); but when a merge reports a conflict the
attribute is replaced by nil (see the counterexample). -/
theorem claim_C2 (ctr : Container) (pps : List PodPreset) :
    (∀ l, mergeEnv ctr.env pps = .ok l →
      (applyPodPresetsOnContainer ctr pps).env = l ∧
      ∃ t, sliceList l = sliceList ctr.env ++ t) ∧
    (∀ l, mergeEnvFrom ctr.envFrom pps = .ok l →
      (applyPodPresetsOnContainer ctr pps).envFrom = l ∧
      ∃ t, sliceList l = sliceList ctr.envFrom ++ t) ∧
    (∀ l, mergeVolumeMounts ctr.volumeMounts pps = .ok l →
      (applyPodPresetsOnContainer ctr pps).volumeMounts = l ∧
      ∃ t, sliceList l = sliceList ctr.volumeMounts ++ t) := by
  refine ⟨?_, ?_, ?_⟩
  · intro l h
    refine ⟨by simp [applyPodPresetsOnContainer, mergeValue, h], ?_⟩
    rw [mergeEnv_spec] at h
    by_cases herr : errsOf EnvVar.name Conflict.env
        (GoMap.ofList EnvVar.name (sliceList ctr.env)) (presetPairs PodPresetSpec.env pps) = []
    · rw [if_pos herr] at h
      simp only [Except.ok.injEq] at h
      subst h
      exact ⟨_, rfl⟩
    · rw [if_neg herr] at h
      cases h
  · intro l h
    refine ⟨by simp [applyPodPresetsOnContainer, mergeValue, h], ?_⟩
    rw [mergeEnvFrom_spec] at h
    by_cases herr : efErrsOf (GoMap.ofList newEnvFromMergeKey (sliceList ctr.envFrom))
        (presetPairs PodPresetSpec.envFrom pps) = []
    · rw [if_pos herr] at h
      by_cases hm : sliceList ctr.envFrom ++
          efAppendedOf (GoMap.ofList newEnvFromMergeKey (sliceList ctr.envFrom))
            (presetPairs PodPresetSpec.envFrom pps) = []
      · rw [if_pos hm] at h
        simp only [Except.ok.injEq] at h
        subst h
        exact ⟨_, hm.symm⟩
      · rw [if_neg hm] at h
        simp only [Except.ok.injEq] at h
        subst h
        exact ⟨_, rfl⟩
    · rw [if_neg herr] at h
      cases h
  · intro l h
    refine ⟨by simp [applyPodPresetsOnContainer, mergeValue, h], ?_⟩
    rw [mergeVolumeMounts_spec] at h
    by_cases herr : vmErrsOf (GoMap.ofList VolumeMount.name (sliceList ctr.volumeMounts))
        (GoMap.ofList VolumeMount.mountPath (sliceList ctr.volumeMounts))
        (presetPairs PodPresetSpec.volumeMounts pps) = []
    · rw [if_pos herr] at h
      simp only [Except.ok.injEq] at h
      subst h
      exact ⟨_, rfl⟩
    · rw [if_neg herr] at h
      cases h

/-- Claim C9 counterexample: with an empty union, mergeEnv and
mergeVolumeMounts both return an empty-but-present (non-nil) list, not an
absent one — only mergeVolumes normalizes. -/
theorem claim_C9_counterexample :
    mergeEnv none [] = .ok (some []) ∧ mergeVolumeMounts none [] = .ok (some []) := by
  decide

/-- Claim C9 (amended): mergeVolumes (and, because it never allocates,
mergeEnvFrom) never returns an empty-but-present list — a zero-entry union
comes back nil; mergeEnv by contrast returns an empty-but-present list when
the union is empty. -/
theorem claim_C9 :
    (∀ s pps l, mergeVolumes s pps = .ok l → l = none ∨ 0 < (sliceList l).length) ∧
    (∀ s pps l, mergeEnvFrom s pps = .ok l → l = none ∨ 0 < (sliceList l).length) ∧
    (∀ pps, (∀ pp ∈ pps, pp.spec.env = []) → mergeEnv none pps = .ok (some [])) := by
  refine ⟨?_, ?_, ?_⟩
  · intro s pps l h
    rw [mergeVolumes_spec] at h
    by_cases herr : errsOf Volume.name Conflict.volume
        (GoMap.ofList Volume.name (sliceList s)) (presetPairs PodPresetSpec.volumes pps) = []
    · rw [if_pos herr] at h
      by_cases hm : sliceList s ++ appendedOf Volume.name
          (GoMap.ofList Volume.name (sliceList s)) (presetPairs PodPresetSpec.volumes pps) = []
      · rw [if_pos hm] at h
        simp only [Except.ok.injEq] at h
        exact Or.inl h.symm
      · rw [if_neg hm] at h
        simp only [Except.ok.injEq] at h
        subst h
        exact Or.inr (List.length_pos.mpr hm)
    · rw [if_neg herr] at h
      cases h
  · intro s pps l h
    rw [mergeEnvFrom_spec] at h
    by_cases herr : efErrsOf (GoMap.ofList newEnvFromMergeKey (sliceList s))
        (presetPairs PodPresetSpec.envFrom pps) = []
    · rw [if_pos herr] at h
      by_cases hm : sliceList s ++ efAppendedOf (GoMap.ofList newEnvFromMergeKey (sliceList s))
          (presetPairs PodPresetSpec.envFrom pps) = []
      · rw [if_pos hm] at h
        simp only [Except.ok.injEq] at h
        exact Or.inl h.symm
      · rw [if_neg hm] at h
        simp only [Except.ok.injEq] at h
        subst h
        exact Or.inr (List.length_pos.mpr hm)
    · rw [if_neg herr] at h
      cases h
  · intro pps hp
    rw [mergeEnv_spec, presetPairs_eq_nil hp]
    simp [errsOf, appendedOf, sliceList]

/-- Claim C10: when a merger detects a conflict it returns Go's `(nil, err)`
pair, and the applier, which discards the error, rebinds the corresponding
attribute to that nil slice, discarding the target's original entries. -/
theorem claim_C10 (ctr : Container) (pod : Pod) (pps : List PodPreset) :
    (∀ e, mergeEnv ctr.env pps = .error e → (applyPodPresetsOnContainer ctr pps).env = none) ∧
    (∀ e, mergeEnvFrom ctr.envFrom pps = .error e →
      (applyPodPresetsOnContainer ctr pps).envFrom = none) ∧
    (∀ e, mergeVolumeMounts ctr.volumeMounts pps = .error e →
      (applyPodPresetsOnContainer ctr pps).volumeMounts = none) ∧
    (∀ e, mergeVolumes pod.spec.volumes pps = .error e →
      (applyPodPresetsOnPod pod pps).spec.volumes = none) := by
  refine ⟨?_, ?_, ?_, ?_⟩
  · intro e h
    simp [applyPodPresetsOnContainer, mergeValue, h]
  · intro e h
    simp [applyPodPresetsOnContainer, mergeValue, h]
  · intro e h
    simp [applyPodPresetsOnContainer, mergeValue, h]
  · intro e h
    cases pps with
    | nil => exact absurd h (mergeVolumes_nil_not_error _ _)
    | cons pp t =>
      rw [applyPodPresetsOnPod]
      rw [if_neg (by simp)]
      simp [mergeValue, h]

/-- Witness for claim C2 at a concrete conflict-free input. -/
theorem claim_C2_witness :
    (applyPodPresetsOnContainer ⟨some [⟨"A", "1"⟩], none, none⟩
        [⟨"P1", "1", ⟨[⟨"B", "2"⟩], [], [], []⟩⟩]).env = some [⟨"A", "1"⟩, ⟨"B", "2"⟩] ∧
    ∃ t, sliceList (some [⟨"A", "1"⟩, ⟨"B", "2"⟩] : GoSlice EnvVar) =
      sliceList (some [⟨"A", "1"⟩] : GoSlice EnvVar) ++ t :=
  (claim_C2 ⟨some [⟨"A", "1"⟩], none, none⟩ [⟨"P1", "1", ⟨[⟨"B", "2"⟩], [], [], []⟩⟩]).1
    (some [⟨"A", "1"⟩, ⟨"B", "2"⟩]) (by decide)

/-- Witness for claim C9 at a concrete input. -/
theorem claim_C9_witness :
    (some [(⟨"v", "a"⟩ : Volume)] : GoSlice Volume) = none ∨
      0 < (sliceList (some [(⟨"v", "a"⟩ : Volume)] : GoSlice Volume)).length :=
  claim_C9.1 (some [⟨"v", "a"⟩]) [] (some [⟨"v", "a"⟩]) (by decide)

/-- Witness for claim C10 at a concrete conflicting input. -/
theorem claim_C10_witness :
    (applyPodPresetsOnContainer ⟨some [⟨"FOO", "a"⟩], none, none⟩
        [⟨"P1", "1", ⟨[⟨"FOO", "z"⟩], [], [], []⟩⟩]).env = none :=
  (claim_C10 ⟨some [⟨"FOO", "a"⟩], none, none⟩ ⟨none, ⟨none, [], []⟩⟩
      [⟨"P1", "1", ⟨[⟨"FOO", "z"⟩], [], [], []⟩⟩]).1
    [Conflict.env "P1" ⟨"FOO", "z"⟩ ⟨"FOO", "a"⟩] (by decide)

theorem nodup_merged_names {κ α : Type} [DecidableEq κ] [DecidableEq α] (key : α → κ)
    (orig : List α) (pairs : List (String × α)) (hnd : (orig.map key).Nodup) :
    ((orig ++ appendedOf key (GoMap.ofList key orig) pairs).map key).Nodup := by
  rw [List.map_append, List.nodup_append]
  refine ⟨hnd, appendedOf_keys_nodup key _ _, ?_⟩
  intro k hk1 hk2
  have hmem := (key_mem_appendedOf key).mp hk2
  exact ((ofList_eq_none_iff key).mp hmem.1) hk1

/-- Claim C4 counterexample: a duplicate-keyed original passes through
mergeEnv untouched, and mergeEnvFrom appends the same overlay key twice (its
index never registers overlay entries), so successful merge outputs can carry
duplicate identity keys. -/
theorem claim_C4_counterexample :
    mergeEnv (some [⟨"A", "1"⟩, ⟨"A", "2"⟩]) [] = .ok (some [⟨"A", "1"⟩, ⟨"A", "2"⟩]) ∧
    mergeEnvFrom (some [])
        [⟨"P1", "1", ⟨[], [⟨"p", some ⟨"c", some true⟩, none⟩], [], []⟩⟩,
         ⟨"P2", "1", ⟨[], [⟨"p", some ⟨"c", some true⟩, none⟩], [], []⟩⟩] =
      .ok (some [⟨"p", some ⟨"c", some true⟩, none⟩, ⟨"p", some ⟨"c", some true⟩, none⟩]) := by
  decide

/-- Claim C4 (amended): for mergeEnv, mergeVolumes and mergeVolumeMounts, if
the original list has no two entries sharing the identity key, a successful
merge output has none either; mergeEnvFrom does not guarantee this. -/
theorem claim_C4 :
    (∀ (s : GoSlice EnvVar) (pps : List PodPreset) l,
      ((sliceList s).map EnvVar.name).Nodup → mergeEnv s pps = .ok l →
      ((sliceList l).map EnvVar.name).Nodup) ∧
    (∀ (s : GoSlice Volume) (pps : List PodPreset) l,
      ((sliceList s).map Volume.name).Nodup → mergeVolumes s pps = .ok l →
      ((sliceList l).map Volume.name).Nodup) ∧
    (∀ (s : GoSlice VolumeMount) (pps : List PodPreset) l,
      ((sliceList s).map VolumeMount.name).Nodup → mergeVolumeMounts s pps = .ok l →
      ((sliceList l).map VolumeMount.name).Nodup) := by
  refine ⟨?_, ?_, ?_⟩
  · intro s pps l hnd h
    rw [mergeEnv_spec] at h
    by_cases herr : errsOf EnvVar.name Conflict.env
        (GoMap.ofList EnvVar.name (sliceList s)) (presetPairs PodPresetSpec.env pps) = []
    · rw [if_pos herr] at h
      simp only [Except.ok.injEq] at h
      subst h
      exact nodup_merged_names EnvVar.name _ _ hnd
    · rw [if_neg herr] at h
      cases h
  · intro s pps l hnd h
    rw [mergeVolumes_spec] at h
    by_cases herr : errsOf Volume.name Conflict.volume
        (GoMap.ofList Volume.name (sliceList s)) (presetPairs PodPresetSpec.volumes pps) = []
    · rw [if_pos herr] at h
      by_cases hm : sliceList s ++ appendedOf Volume.name
          (GoMap.ofList Volume.name (sliceList s)) (presetPairs PodPresetSpec.volumes pps) = []
      · rw [if_pos hm] at h
        simp only [Except.ok.injEq] at h
        subst h
        simp [sliceList]
      · rw [if_neg hm] at h
        simp only [Except.ok.injEq] at h
        subst h
        exact nodup_merged_names Volume.name _ _ hnd
    · rw [if_neg herr] at h
      cases h
  · intro s pps l hnd h
    rw [mergeVolumeMounts_spec] at h
    by_cases herr : vmErrsOf (GoMap.ofList VolumeMount.name (sliceList s))
        (GoMap.ofList VolumeMount.mountPath (sliceList s))
        (presetPairs PodPresetSpec.volumeMounts pps) = []
    · rw [if_pos herr] at h
      simp only [Except.ok.injEq] at h
      subst h
      exact nodup_merged_names VolumeMount.name _ _ hnd
    · rw [if_neg herr] at h
      cases h

/-- Witness for claim C4 at a concrete input. -/
theorem claim_C4_witness :
    ((sliceList (some [⟨"A", "1"⟩, ⟨"B", "2"⟩] : GoSlice EnvVar)).map EnvVar.name).Nodup :=
  claim_C4.1 (some [⟨"A", "1"⟩]) [⟨"P1", "1", ⟨[⟨"B", "2"⟩], [], [], []⟩⟩]
    (some [⟨"A", "1"⟩, ⟨"B", "2"⟩]) (by decide) (by decide)

/-- Claim C5 counterexample: two overlays contribute EnvFrom entries with the
same merge key (prefix p, config map c) but unequal values (optional true
vs false); mergeEnvFrom reports no conflict and appends both. -/
theorem claim_C5_counterexample :
    newEnvFromMergeKey ⟨"p", some ⟨"c", some true⟩, none⟩ =
      newEnvFromMergeKey ⟨"p", some ⟨"c", some false⟩, none⟩ ∧
    decide ((⟨"p", some ⟨"c", some true⟩, none⟩ : EnvFromSource) =
      ⟨"p", some ⟨"c", some false⟩, none⟩) = false ∧
    mergeEnvFrom (some [])
        [⟨"P1", "1", ⟨[], [⟨"p", some ⟨"c", some true⟩, none⟩], [], []⟩⟩,
         ⟨"P2", "1", ⟨[], [⟨"p", some ⟨"c", some false⟩, none⟩], [], []⟩⟩] =
      .ok (some [⟨"p", some ⟨"c", some true⟩, none⟩, ⟨"p", some ⟨"c", some false⟩, none⟩]) := by
  decide

/-- Claim C5 (amended): for Env, Volumes and VolumeMounts, two overlays
contributing the same identity key with unequal values always produce a
conflict, even when the target has no entry for that key; mergeEnvFrom does
not detect overlay-overlay collisions. -/
theorem claim_C5 :
    (∀ (s : GoSlice EnvVar) (pps : List PodPreset) (pp₁ pp₂ : PodPreset) (v w : EnvVar),
      pp₁ ∈ pps → pp₂ ∈ pps → v ∈ pp₁.spec.env → w ∈ pp₂.spec.env →
      v.name = w.name → ¬ v = w → ∃ e, mergeEnv s pps = .error e) ∧
    (∀ (s : GoSlice Volume) (pps : List PodPreset) (pp₁ pp₂ : PodPreset) (v w : Volume),
      pp₁ ∈ pps → pp₂ ∈ pps → v ∈ pp₁.spec.volumes → w ∈ pp₂.spec.volumes →
      v.name = w.name → ¬ v = w → ∃ e, mergeVolumes s pps = .error e) ∧
    (∀ (s : GoSlice VolumeMount) (pps : List PodPreset) (pp₁ pp₂ : PodPreset) (v w : VolumeMount),
      pp₁ ∈ pps → pp₂ ∈ pps → v ∈ pp₁.spec.volumeMounts → w ∈ pp₂.spec.volumeMounts →
      v.name = w.name → ¬ v = w → ∃ e, mergeVolumeMounts s pps = .error e) := by
  refine ⟨?_, ?_, ?_⟩
  · intro s pps pp₁ pp₂ v w h1 h2 hv hw hk hne
    rw [mergeEnv_spec]
    by_cases herr : errsOf EnvVar.name Conflict.env
        (GoMap.ofList EnvVar.name (sliceList s)) (presetPairs PodPresetSpec.env pps) = []
    · exfalso
      have hc := (errsOf_eq_nil_iff EnvVar.name Conflict.env _ _).mp herr
      have m1 := presetPairs_mem h1 hv
      have m2 := presetPairs_mem h2 hw
      cases hm : GoMap.ofList EnvVar.name (sliceList s) v.name with
      | some u =>
        have e1 : v = u := hc.1 (pp₁.name, v) m1 u hm
        have e2 : w = u := hc.1 (pp₂.name, w) m2 u (by rw [show EnvVar.name w = v.name from hk.symm]; exact hm)
        exact hne (by rw [e1, e2])
      | none =>
        exact hne (hc.2 (pp₁.name, v) m1 (pp₂.name, w) m2 hk hm)
    · exact ⟨_, by rw [if_neg herr]⟩
  · intro s pps pp₁ pp₂ v w h1 h2 hv hw hk hne
    rw [mergeVolumes_spec]
    by_cases herr : errsOf Volume.name Conflict.volume
        (GoMap.ofList Volume.name (sliceList s)) (presetPairs PodPresetSpec.volumes pps) = []
    · exfalso
      have hc := (errsOf_eq_nil_iff Volume.name Conflict.volume _ _).mp herr
      have m1 := presetPairs_mem h1 hv
      have m2 := presetPairs_mem h2 hw
      cases hm : GoMap.ofList Volume.name (sliceList s) v.name with
      | some u =>
        have e1 : v = u := hc.1 (pp₁.name, v) m1 u hm
        have e2 : w = u := hc.1 (pp₂.name, w) m2 u (by rw [show Volume.name w = v.name from hk.symm]; exact hm)
        exact hne (by rw [e1, e2])
      | none =>
        exact hne (hc.2 (pp₁.name, v) m1 (pp₂.name, w) m2 hk hm)
    · exact ⟨_, by rw [if_neg herr]⟩
  · intro s pps pp₁ pp₂ v w h1 h2 hv hw hk hne
    rw [mergeVolumeMounts_spec]
    by_cases herr : vmErrsOf (GoMap.ofList VolumeMount.name (sliceList s))
        (GoMap.ofList VolumeMount.mountPath (sliceList s))
        (presetPairs PodPresetSpec.volumeMounts pps) = []
    · exfalso
      obtain ⟨hnm, _⟩ := (vmErrsOf_eq_nil_iff _ _ _).mp herr
      have hc := (errsOf_eq_nil_iff VolumeMount.name Conflict.volumeMountName _ _).mp hnm
      have m1 := presetPairs_mem h1 hv
      have m2 := presetPairs_mem h2 hw
      cases hm : GoMap.ofList VolumeMount.name (sliceList s) v.name with
      | some u =>
        have e1 : v = u := hc.1 (pp₁.name, v) m1 u hm
        have e2 : w = u := hc.1 (pp₂.name, w) m2 u (by rw [show VolumeMount.name w = v.name from hk.symm]; exact hm)
        exact hne (by rw [e1, e2])
      | none =>
        exact hne (hc.2 (pp₁.name, v) m1 (pp₂.name, w) m2 hk hm)
    · exact ⟨_, by rw [if_neg herr]⟩

/-- Witness for claim C5 at a concrete input. -/
theorem claim_C5_witness :
    ∃ e, mergeEnv (none : GoSlice EnvVar)
        [⟨"P1", "1", ⟨[⟨"X", "1"⟩], [], [], []⟩⟩,
         ⟨"P2", "1", ⟨[⟨"X", "2"⟩], [], [], []⟩⟩] = .error e :=
  claim_C5.1 none
    [⟨"P1", "1", ⟨[⟨"X", "1"⟩], [], [], []⟩⟩, ⟨"P2", "1", ⟨[⟨"X", "2"⟩], [], [], []⟩⟩]
    ⟨"P1", "1", ⟨[⟨"X", "1"⟩], [], [], []⟩⟩ ⟨"P2", "1", ⟨[⟨"X", "2"⟩], [], [], []⟩⟩
    ⟨"X", "1"⟩ ⟨"X", "2"⟩ (by decide) (by decide) (by decide) (by decide) (by decide) (by decide)

theorem bool_eq_of_iff {a b : Bool} (h : (a = true) ↔ (b = true)) : a = b := by
  cases a <;> cases b <;> simp_all

theorem mergeEnv_isOk_iff (s : GoSlice EnvVar) (pps : List PodPreset) :
    (mergeEnv s pps).isOk = true ↔
      errsOf EnvVar.name Conflict.env (GoMap.ofList EnvVar.name (sliceList s))
        (presetPairs PodPresetSpec.env pps) = [] := by
  rw [mergeEnv_spec]
  by_cases herr : errsOf EnvVar.name Conflict.env (GoMap.ofList EnvVar.name (sliceList s))
      (presetPairs PodPresetSpec.env pps) = []
  · rw [if_pos herr]
    simp [Except.isOk, Except.toBool, herr]
  · rw [if_neg herr]
    simp [Except.isOk, Except.toBool, herr]

theorem mergeVolumes_isOk_iff (s : GoSlice Volume) (pps : List PodPreset) :
    (mergeVolumes s pps).isOk = true ↔
      errsOf Volume.name Conflict.volume (GoMap.ofList Volume.name (sliceList s))
        (presetPairs PodPresetSpec.volumes pps) = [] := by
  rw [mergeVolumes_spec]
  by_cases herr : errsOf Volume.name Conflict.volume (GoMap.ofList Volume.name (sliceList s))
      (presetPairs PodPresetSpec.volumes pps) = []
  · rw [if_pos herr]
    by_cases hm : sliceList s ++ appendedOf Volume.name (GoMap.ofList Volume.name (sliceList s))
        (presetPairs PodPresetSpec.volumes pps) = []
    · rw [if_pos hm]
      simp [Except.isOk, Except.toBool, herr]
    · rw [if_neg hm]
      simp [Except.isOk, Except.toBool, herr]
  · rw [if_neg herr]
    simp [Except.isOk, Except.toBool, herr]

theorem mergeVolumeMounts_isOk_iff (s : GoSlice VolumeMount) (pps : List PodPreset) :
    (mergeVolumeMounts s pps).isOk = true ↔
      vmErrsOf (GoMap.ofList VolumeMount.name (sliceList s))
        (GoMap.ofList VolumeMount.mountPath (sliceList s))
        (presetPairs PodPresetSpec.volumeMounts pps) = [] := by
  rw [mergeVolumeMounts_spec]
  by_cases herr : vmErrsOf (GoMap.ofList VolumeMount.name (sliceList s))
      (GoMap.ofList VolumeMount.mountPath (sliceList s))
      (presetPairs PodPresetSpec.volumeMounts pps) = []
  · rw [if_pos herr]
    simp [Except.isOk, Except.toBool, herr]
  · rw [if_neg herr]
    simp [Except.isOk, Except.toBool, herr]

theorem mergeEnvFrom_isOk_iff (s : GoSlice EnvFromSource) (pps : List PodPreset) :
    (mergeEnvFrom s pps).isOk = true ↔
      efErrsOf (GoMap.ofList newEnvFromMergeKey (sliceList s))
        (presetPairs PodPresetSpec.envFrom pps) = [] := by
  rw [mergeEnvFrom_spec]
  by_cases herr : efErrsOf (GoMap.ofList newEnvFromMergeKey (sliceList s))
      (presetPairs PodPresetSpec.envFrom pps) = []
  · rw [if_pos herr]
    simp [Except.isOk, Except.toBool, herr]
  · rw [if_neg herr]
    simp [Except.isOk, Except.toBool, herr]

theorem efErrsOf_nil_perm (m : GoMap EnvFromMergeKey EnvFromSource)
    {l₁ l₂ : List (String × EnvFromSource)} (h : l₁.Perm l₂) :
    efErrsOf m l₁ = [] ↔ efErrsOf m l₂ = [] := by
  rw [efErrsOf_eq_nil_iff, efErrsOf_eq_nil_iff]
  constructor
  · intro hall p hp w hw
    exact hall p (h.mem_iff.mpr hp) w hw
  · intro hall p hp w hw
    exact hall p (h.mem_iff.mp hp) w hw

theorem efAppendedOf_perm (m : GoMap EnvFromMergeKey EnvFromSource)
    {l₁ l₂ : List (String × EnvFromSource)} (h : l₁.Perm l₂) :
    (efAppendedOf m l₁).Perm (efAppendedOf m l₂) := by
  rw [efAppendedOf_eq, efAppendedOf_eq]
  exact (h.filter _).map _

theorem safeToApply_of_error {pod : Pod} {pps : List PodPreset} {e : List Conflict}
    (h : mergeVolumes pod.spec.volumes pps = .error e) :
    safeToApplyPodPresetsOnPod pod pps = e := by
  unfold safeToApplyPodPresetsOnPod
  rw [h]

theorem safeToApply_of_ok {pod : Pod} {pps : List PodPreset} {v : GoSlice Volume}
    (h : mergeVolumes pod.spec.volumes pps = .ok v) :
    safeToApplyPodPresetsOnPod pod pps = [] := by
  unfold safeToApplyPodPresetsOnPod
  rw [h]

theorem mergeVolumes_error_ne_nil {s : GoSlice Volume} {pps : List PodPreset}
    {e : List Conflict} (h : mergeVolumes s pps = .error e) : e ≠ [] := by
  rw [mergeVolumes_spec] at h
  by_cases herr : errsOf Volume.name Conflict.volume (GoMap.ofList Volume.name (sliceList s))
      (presetPairs PodPresetSpec.volumes pps) = []
  · rw [if_pos herr] at h
    by_cases hm : sliceList s ++ appendedOf Volume.name (GoMap.ofList Volume.name (sliceList s))
        (presetPairs PodPresetSpec.volumes pps) = []
    · rw [if_pos hm] at h
      cases h
    · rw [if_neg hm] at h
      cases h
  · rw [if_neg herr] at h
    simp only [Except.error.injEq] at h
    rw [← h]
    exact herr

/-- The probe reports no conflict exactly when the pod-level volumes merge
succeeds (the only merge it runs). -/
theorem probe_empty_iff (pod : Pod) (pps : List PodPreset) :
    safeToApplyPodPresetsOnPod pod pps = [] ↔
      (mergeVolumes pod.spec.volumes pps).isOk = true := by
  cases hmv : mergeVolumes pod.spec.volumes pps with
  | error e =>
    rw [safeToApply_of_error hmv]
    simp [Except.isOk, Except.toBool, mergeVolumes_error_ne_nil hmv]
  | ok v =>
    rw [safeToApply_of_ok hmv]
    simp [Except.isOk, Except.toBool]

/-- Claim C6 counterexample: the mergers iterate overlays in the supplied
order without sorting by name, so permuting the overlays permutes the
appended entries and the merged outputs are not identical; moreover the
conflict reports are not set-equal either — an overlay-overlay conflict is
attributed to whichever overlay iterates second, with the first's value as
the indexed one. -/
theorem claim_C6_counterexample :
    mergeEnv (some []) [⟨"PA", "1", ⟨[⟨"A", "1"⟩], [], [], []⟩⟩,
        ⟨"PB", "1", ⟨[⟨"B", "2"⟩], [], [], []⟩⟩] = .ok (some [⟨"A", "1"⟩, ⟨"B", "2"⟩]) ∧
    mergeEnv (some []) [⟨"PB", "1", ⟨[⟨"B", "2"⟩], [], [], []⟩⟩,
        ⟨"PA", "1", ⟨[⟨"A", "1"⟩], [], [], []⟩⟩] = .ok (some [⟨"B", "2"⟩, ⟨"A", "1"⟩]) ∧
    decide ((some [⟨"A", "1"⟩, ⟨"B", "2"⟩] : GoSlice EnvVar) =
      some [⟨"B", "2"⟩, ⟨"A", "1"⟩]) = false ∧
    mergeEnv (some []) [⟨"P1", "1", ⟨[⟨"X", "1"⟩], [], [], []⟩⟩,
        ⟨"P2", "1", ⟨[⟨"X", "2"⟩], [], [], []⟩⟩] =
      .error [Conflict.env "P2" ⟨"X", "2"⟩ ⟨"X", "1"⟩] ∧
    mergeEnv (some []) [⟨"P2", "1", ⟨[⟨"X", "2"⟩], [], [], []⟩⟩,
        ⟨"P1", "1", ⟨[⟨"X", "1"⟩], [], [], []⟩⟩] =
      .error [Conflict.env "P1" ⟨"X", "1"⟩ ⟨"X", "2"⟩] := by
  decide

/-- Claim C6 (amended): permuting the overlays supplied to any of the four
mergers, or to the probe, preserves the conflict/no-conflict outcome, and
successful merged outputs contain the same entries up to order; but the
outputs are not identical (the code iterates in the supplied order and never
sorts overlays by name) and the conflict reports need not be set-equal (see
the counterexample). -/
theorem claim_C6 (pps₁ pps₂ : List PodPreset) (h : pps₁.Perm pps₂) :
    (∀ s : GoSlice EnvVar,
      (mergeEnv s pps₁).isOk = (mergeEnv s pps₂).isOk ∧
      ∀ l₁ l₂, mergeEnv s pps₁ = .ok l₁ → mergeEnv s pps₂ = .ok l₂ →
        (sliceList l₁).Perm (sliceList l₂)) ∧
    (∀ s : GoSlice Volume,
      (mergeVolumes s pps₁).isOk = (mergeVolumes s pps₂).isOk ∧
      ∀ l₁ l₂, mergeVolumes s pps₁ = .ok l₁ → mergeVolumes s pps₂ = .ok l₂ →
        (sliceList l₁).Perm (sliceList l₂)) ∧
    (∀ s : GoSlice VolumeMount,
      (mergeVolumeMounts s pps₁).isOk = (mergeVolumeMounts s pps₂).isOk ∧
      ∀ l₁ l₂, mergeVolumeMounts s pps₁ = .ok l₁ → mergeVolumeMounts s pps₂ = .ok l₂ →
        (sliceList l₁).Perm (sliceList l₂)) ∧
    (∀ s : GoSlice EnvFromSource,
      (mergeEnvFrom s pps₁).isOk = (mergeEnvFrom s pps₂).isOk ∧
      ∀ l₁ l₂, mergeEnvFrom s pps₁ = .ok l₁ → mergeEnvFrom s pps₂ = .ok l₂ →
        (sliceList l₁).Perm (sliceList l₂)) ∧
    (∀ pod : Pod,
      safeToApplyPodPresetsOnPod pod pps₁ = [] ↔ safeToApplyPodPresetsOnPod pod pps₂ = []) := by
  have hpE := presetPairs_perm PodPresetSpec.env h
  have hpV := presetPairs_perm PodPresetSpec.volumes h
  have hpM := presetPairs_perm PodPresetSpec.volumeMounts h
  have hpF := presetPairs_perm PodPresetSpec.envFrom h
  have hiffE : ∀ s : GoSlice EnvVar,
      errsOf EnvVar.name Conflict.env (GoMap.ofList EnvVar.name (sliceList s))
        (presetPairs PodPresetSpec.env pps₁) = [] ↔
      errsOf EnvVar.name Conflict.env (GoMap.ofList EnvVar.name (sliceList s))
        (presetPairs PodPresetSpec.env pps₂) = [] := by
    intro s
    rw [errsOf_eq_nil_iff, errsOf_eq_nil_iff]
    exact compat_perm EnvVar.name hpE
  have hiffV : ∀ s : GoSlice Volume,
      errsOf Volume.name Conflict.volume (GoMap.ofList Volume.name (sliceList s))
        (presetPairs PodPresetSpec.volumes pps₁) = [] ↔
      errsOf Volume.name Conflict.volume (GoMap.ofList Volume.name (sliceList s))
        (presetPairs PodPresetSpec.volumes pps₂) = [] := by
    intro s
    rw [errsOf_eq_nil_iff, errsOf_eq_nil_iff]
    exact compat_perm Volume.name hpV
  have hiffM : ∀ s : GoSlice VolumeMount,
      vmErrsOf (GoMap.ofList VolumeMount.name (sliceList s))
        (GoMap.ofList VolumeMount.mountPath (sliceList s))
        (presetPairs PodPresetSpec.volumeMounts pps₁) = [] ↔
      vmErrsOf (GoMap.ofList VolumeMount.name (sliceList s))
        (GoMap.ofList VolumeMount.mountPath (sliceList s))
        (presetPairs PodPresetSpec.volumeMounts pps₂) = [] := by
    intro s
    rw [vmErrsOf_eq_nil_iff, vmErrsOf_eq_nil_iff]
    apply and_congr
    · rw [errsOf_eq_nil_iff, errsOf_eq_nil_iff]
      exact compat_perm VolumeMount.name hpM
    · rw [errsOf_eq_nil_iff, errsOf_eq_nil_iff]
      exact compat_perm VolumeMount.mountPath hpM
  have hiffF : ∀ s : GoSlice EnvFromSource,
      efErrsOf (GoMap.ofList newEnvFromMergeKey (sliceList s))
        (presetPairs PodPresetSpec.envFrom pps₁) = [] ↔
      efErrsOf (GoMap.ofList newEnvFromMergeKey (sliceList s))
        (presetPairs PodPresetSpec.envFrom pps₂) = [] :=
    fun s => efErrsOf_nil_perm _ hpF
  have hvolOk : ∀ s : GoSlice Volume,
      (mergeVolumes s pps₁).isOk = (mergeVolumes s pps₂).isOk :=
    fun s => bool_eq_of_iff
      ((mergeVolumes_isOk_iff s pps₁).trans ((hiffV s).trans (mergeVolumes_isOk_iff s pps₂).symm))
  refine ⟨?_, ?_, ?_, ?_, ?_⟩
  · intro s
    refine ⟨bool_eq_of_iff
      ((mergeEnv_isOk_iff s pps₁).trans ((hiffE s).trans (mergeEnv_isOk_iff s pps₂).symm)), ?_⟩
    intro l₁ l₂ h₁ h₂
    rw [mergeEnv_spec] at h₁ h₂
    by_cases hx : errsOf EnvVar.name Conflict.env (GoMap.ofList EnvVar.name (sliceList s))
        (presetPairs PodPresetSpec.env pps₁) = []
    · rw [if_pos hx] at h₁
      rw [if_pos ((hiffE s).mp hx)] at h₂
      simp only [Except.ok.injEq] at h₁ h₂
      subst h₁
      subst h₂
      exact List.Perm.append_left _ (appendedOf_perm EnvVar.name
        ((errsOf_eq_nil_iff EnvVar.name Conflict.env _ _).mp hx) hpE)
    · rw [if_neg hx] at h₁
      cases h₁
  · intro s
    refine ⟨hvolOk s, ?_⟩
    intro l₁ l₂ h₁ h₂
    rw [mergeVolumes_spec] at h₁ h₂
    by_cases hx : errsOf Volume.name Conflict.volume (GoMap.ofList Volume.name (sliceList s))
        (presetPairs PodPresetSpec.volumes pps₁) = []
    · rw [if_pos hx] at h₁
      rw [if_pos ((hiffV s).mp hx)] at h₂
      have hperm : (sliceList s ++ appendedOf Volume.name
          (GoMap.ofList Volume.name (sliceList s))
          (presetPairs PodPresetSpec.volumes pps₁)).Perm
          (sliceList s ++ appendedOf Volume.name (GoMap.ofList Volume.name (sliceList s))
            (presetPairs PodPresetSpec.volumes pps₂)) :=
        List.Perm.append_left _ (appendedOf_perm Volume.name
          ((errsOf_eq_nil_iff Volume.name Conflict.volume _ _).mp hx) hpV)
      by_cases hm : sliceList s ++ appendedOf Volume.name (GoMap.ofList Volume.name (sliceList s))
          (presetPairs PodPresetSpec.volumes pps₁) = []
      · have hm₂ : sliceList s ++ appendedOf Volume.name (GoMap.ofList Volume.name (sliceList s))
            (presetPairs PodPresetSpec.volumes pps₂) = [] := by
          have hp2 := hperm
          rw [hm] at hp2
          exact hp2.symm.eq_nil
        rw [if_pos hm] at h₁
        rw [if_pos hm₂] at h₂
        simp only [Except.ok.injEq] at h₁ h₂
        subst h₁
        subst h₂
        exact List.Perm.refl _
      · have hm₂ : ¬ sliceList s ++ appendedOf Volume.name (GoMap.ofList Volume.name (sliceList s))
            (presetPairs PodPresetSpec.volumes pps₂) = [] := by
          intro hc
          apply hm
          have hp2 := hperm
          rw [hc] at hp2
          exact hp2.eq_nil
        rw [if_neg hm] at h₁
        rw [if_neg hm₂] at h₂
        simp only [Except.ok.injEq] at h₁ h₂
        subst h₁
        subst h₂
        exact hperm
    · rw [if_neg hx] at h₁
      cases h₁
  · intro s
    refine ⟨bool_eq_of_iff ((mergeVolumeMounts_isOk_iff s pps₁).trans
      ((hiffM s).trans (mergeVolumeMounts_isOk_iff s pps₂).symm)), ?_⟩
    intro l₁ l₂ h₁ h₂
    rw [mergeVolumeMounts_spec] at h₁ h₂
    by_cases hx : vmErrsOf (GoMap.ofList VolumeMount.name (sliceList s))
        (GoMap.ofList VolumeMount.mountPath (sliceList s))
        (presetPairs PodPresetSpec.volumeMounts pps₁) = []
    · rw [if_pos hx] at h₁
      rw [if_pos ((hiffM s).mp hx)] at h₂
      simp only [Except.ok.injEq] at h₁ h₂
      subst h₁
      subst h₂
      have hname := ((vmErrsOf_eq_nil_iff _ _ _).mp hx).1
      exact List.Perm.append_left _ (appendedOf_perm VolumeMount.name
        ((errsOf_eq_nil_iff VolumeMount.name Conflict.volumeMountName _ _).mp hname) hpM)
    · rw [if_neg hx] at h₁
      cases h₁
  · intro s
    refine ⟨bool_eq_of_iff ((mergeEnvFrom_isOk_iff s pps₁).trans
      ((hiffF s).trans (mergeEnvFrom_isOk_iff s pps₂).symm)), ?_⟩
    intro l₁ l₂ h₁ h₂
    rw [mergeEnvFrom_spec] at h₁ h₂
    by_cases hx : efErrsOf (GoMap.ofList newEnvFromMergeKey (sliceList s))
        (presetPairs PodPresetSpec.envFrom pps₁) = []
    · rw [if_pos hx] at h₁
      rw [if_pos ((hiffF s).mp hx)] at h₂
      have hperm : (sliceList s ++ efAppendedOf (GoMap.ofList newEnvFromMergeKey (sliceList s))
          (presetPairs PodPresetSpec.envFrom pps₁)).Perm
          (sliceList s ++ efAppendedOf (GoMap.ofList newEnvFromMergeKey (sliceList s))
            (presetPairs PodPresetSpec.envFrom pps₂)) :=
        List.Perm.append_left _ (efAppendedOf_perm _ hpF)
      by_cases hm : sliceList s ++ efAppendedOf (GoMap.ofList newEnvFromMergeKey (sliceList s))
          (presetPairs PodPresetSpec.envFrom pps₁) = []
      · have hm₂ : sliceList s ++ efAppendedOf (GoMap.ofList newEnvFromMergeKey (sliceList s))
            (presetPairs PodPresetSpec.envFrom pps₂) = [] := by
          have hp2 := hperm
          rw [hm] at hp2
          exact hp2.symm.eq_nil
        rw [if_pos hm] at h₁
        rw [if_pos hm₂] at h₂
        simp only [Except.ok.injEq] at h₁ h₂
        subst h₁
        subst h₂
        exact List.Perm.refl _
      · have hm₂ : ¬ sliceList s ++ efAppendedOf (GoMap.ofList newEnvFromMergeKey (sliceList s))
            (presetPairs PodPresetSpec.envFrom pps₂) = [] := by
          intro hc
          apply hm
          have hp2 := hperm
          rw [hc] at hp2
          exact hp2.eq_nil
        rw [if_neg hm] at h₁
        rw [if_neg hm₂] at h₂
        simp only [Except.ok.injEq] at h₁ h₂
        subst h₁
        subst h₂
        exact hperm
    · rw [if_neg hx] at h₁
      cases h₁
  · intro pod
    rw [probe_empty_iff, probe_empty_iff, hvolOk pod.spec.volumes]

/-- Witness for claim C6 at a concrete permuted pair of preset lists,
exercising the env merger and the probe. -/
theorem claim_C6_witness :
    (mergeEnv (some []) [⟨"PA", "1", ⟨[⟨"A", "1"⟩], [], [], []⟩⟩,
        ⟨"PB", "1", ⟨[⟨"B", "2"⟩], [], [], []⟩⟩]).isOk =
      (mergeEnv (some []) [⟨"PB", "1", ⟨[⟨"B", "2"⟩], [], [], []⟩⟩,
        ⟨"PA", "1", ⟨[⟨"A", "1"⟩], [], [], []⟩⟩]).isOk ∧
    (sliceList (some [⟨"A", "1"⟩, ⟨"B", "2"⟩] : GoSlice EnvVar)).Perm
      (sliceList (some [⟨"B", "2"⟩, ⟨"A", "1"⟩] : GoSlice EnvVar)) ∧
    (safeToApplyPodPresetsOnPod ⟨none, ⟨some [⟨"v", "x"⟩], [], []⟩⟩
        [⟨"PA", "1", ⟨[⟨"A", "1"⟩], [], [], []⟩⟩,
         ⟨"PB", "1", ⟨[⟨"B", "2"⟩], [], [], []⟩⟩] = [] ↔
      safeToApplyPodPresetsOnPod ⟨none, ⟨some [⟨"v", "x"⟩], [], []⟩⟩
        [⟨"PB", "1", ⟨[⟨"B", "2"⟩], [], [], []⟩⟩,
         ⟨"PA", "1", ⟨[⟨"A", "1"⟩], [], [], []⟩⟩] = []) :=
  ⟨((claim_C6 [⟨"PA", "1", ⟨[⟨"A", "1"⟩], [], [], []⟩⟩,
      ⟨"PB", "1", ⟨[⟨"B", "2"⟩], [], [], []⟩⟩]
      [⟨"PB", "1", ⟨[⟨"B", "2"⟩], [], [], []⟩⟩,
      ⟨"PA", "1", ⟨[⟨"A", "1"⟩], [], [], []⟩⟩] (by decide)).1 (some [])).1,
   ((claim_C6 [⟨"PA", "1", ⟨[⟨"A", "1"⟩], [], [], []⟩⟩,
      ⟨"PB", "1", ⟨[⟨"B", "2"⟩], [], [], []⟩⟩]
      [⟨"PB", "1", ⟨[⟨"B", "2"⟩], [], [], []⟩⟩,
      ⟨"PA", "1", ⟨[⟨"A", "1"⟩], [], [], []⟩⟩] (by decide)).1 (some [])).2
     (some [⟨"A", "1"⟩, ⟨"B", "2"⟩]) (some [⟨"B", "2"⟩, ⟨"A", "1"⟩]) (by decide) (by decide),
   (claim_C6 [⟨"PA", "1", ⟨[⟨"A", "1"⟩], [], [], []⟩⟩,
      ⟨"PB", "1", ⟨[⟨"B", "2"⟩], [], [], []⟩⟩]
      [⟨"PB", "1", ⟨[⟨"B", "2"⟩], [], [], []⟩⟩,
      ⟨"PA", "1", ⟨[⟨"A", "1"⟩], [], [], []⟩⟩] (by decide)).2.2.2.2
     ⟨none, ⟨some [⟨"v", "x"⟩], [], []⟩⟩⟩

/-- Claim C8: in mergeVolumeMounts the mount-name and mount-path key spaces
are probed independently: a path collision with unequal values is a conflict
even when the overlay mount's name is new, and a name collision with unequal
values is a conflict even when its path is new. -/
theorem claim_C8 :
    (∀ (s : GoSlice VolumeMount) (pps : List PodPreset) (pp : PodPreset) (v u : VolumeMount),
      ((sliceList s).map VolumeMount.mountPath).Nodup →
      u ∈ sliceList s → pp ∈ pps → v ∈ pp.spec.volumeMounts →
      v.mountPath = u.mountPath → ¬ v = u →
      v.name ∉ (sliceList s).map VolumeMount.name →
      ∃ e, mergeVolumeMounts s pps = .error e) ∧
    (∀ (s : GoSlice VolumeMount) (pps : List PodPreset) (pp : PodPreset) (v u : VolumeMount),
      ((sliceList s).map VolumeMount.name).Nodup →
      u ∈ sliceList s → pp ∈ pps → v ∈ pp.spec.volumeMounts →
      v.name = u.name → ¬ v = u →
      v.mountPath ∉ (sliceList s).map VolumeMount.mountPath →
      ∃ e, mergeVolumeMounts s pps = .error e) := by
  constructor
  · intro s pps pp v u hnd hu hpp hv hpath hne _hfresh
    rw [mergeVolumeMounts_spec]
    by_cases herr : vmErrsOf (GoMap.ofList VolumeMount.name (sliceList s))
        (GoMap.ofList VolumeMount.mountPath (sliceList s))
        (presetPairs PodPresetSpec.volumeMounts pps) = []
    · exfalso
      obtain ⟨_, hpm⟩ := (vmErrsOf_eq_nil_iff _ _ _).mp herr
      have hc := (errsOf_eq_nil_iff VolumeMount.mountPath Conflict.volumeMountPath _ _).mp hpm
      have hm : GoMap.ofList VolumeMount.mountPath (sliceList s) v.mountPath = some u := by
        rw [hpath]
        exact ofList_nodup_mem VolumeMount.mountPath hnd hu
      exact hne (hc.1 (pp.name, v) (presetPairs_mem hpp hv) u hm)
    · exact ⟨_, by rw [if_neg herr]⟩
  · intro s pps pp v u hnd hu hpp hv hname hne _hfresh
    rw [mergeVolumeMounts_spec]
    by_cases herr : vmErrsOf (GoMap.ofList VolumeMount.name (sliceList s))
        (GoMap.ofList VolumeMount.mountPath (sliceList s))
        (presetPairs PodPresetSpec.volumeMounts pps) = []
    · exfalso
      obtain ⟨hnm, _⟩ := (vmErrsOf_eq_nil_iff _ _ _).mp herr
      have hc := (errsOf_eq_nil_iff VolumeMount.name Conflict.volumeMountName _ _).mp hnm
      have hm : GoMap.ofList VolumeMount.name (sliceList s) v.name = some u := by
        rw [hname]
        exact ofList_nodup_mem VolumeMount.name hnd hu
      exact hne (hc.1 (pp.name, v) (presetPairs_mem hpp hv) u hm)
    · exact ⟨_, by rw [if_neg herr]⟩

/-- Witness for claim C8 at concrete inputs: a fresh-name path collision and a
fresh-path name collision. -/
theorem claim_C8_witness :
    (∃ e, mergeVolumeMounts (some [⟨"v1", "/data", false⟩])
        [⟨"P1", "1", ⟨[], [], [], [⟨"v2", "/data", false⟩]⟩⟩] = .error e) ∧
    (∃ e, mergeVolumeMounts (some [⟨"v1", "/data", false⟩])
        [⟨"P1", "1", ⟨[], [], [], [⟨"v1", "/other", false⟩]⟩⟩] = .error e) :=
  ⟨claim_C8.1 (some [⟨"v1", "/data", false⟩])
      [⟨"P1", "1", ⟨[], [], [], [⟨"v2", "/data", false⟩]⟩⟩]
      ⟨"P1", "1", ⟨[], [], [], [⟨"v2", "/data", false⟩]⟩⟩
      ⟨"v2", "/data", false⟩ ⟨"v1", "/data", false⟩
      (by decide) (by decide) (by decide) (by decide) (by decide) (by decide) (by decide),
   claim_C8.2 (some [⟨"v1", "/data", false⟩])
      [⟨"P1", "1", ⟨[], [], [], [⟨"v1", "/other", false⟩]⟩⟩]
      ⟨"P1", "1", ⟨[], [], [], [⟨"v1", "/other", false⟩]⟩⟩
      ⟨"v1", "/other", false⟩ ⟨"v1", "/data", false⟩
      (by decide) (by decide) (by decide) (by decide) (by decide) (by decide) (by decide)⟩

section Restab

variable {κ α : Type} [DecidableEq κ] [DecidableEq α]

/-- After a conflict-free merge, re-running the loop on the merged list finds
every entry already indexed with a compatible value: no conflict and nothing
left to append. -/
theorem restab_core (key : α → κ) (mk : String → α → α → Conflict)
    {orig : List α} {l : List (String × α)}
    (herr : errsOf key mk (GoMap.ofList key orig) l = []) :
    errsOf key mk (GoMap.ofList key
        (orig ++ appendedOf key (GoMap.ofList key orig) l)) l = [] ∧
    appendedOf key (GoMap.ofList key
        (orig ++ appendedOf key (GoMap.ofList key orig) l)) l = [] := by
  have hcompat := (errsOf_eq_nil_iff key mk _ _).mp herr
  constructor
  · exact (errsOf_eq_nil_iff key mk _ _).mpr
      (compat_extend key (fun v hv => (mem_appendedOf key hv).1) hcompat)
  · apply appendedOf_restab
    intro p hp hnone
    exact (key_mem_appendedOf key).mpr ⟨hnone, List.mem_map_of_mem _ hp⟩

end Restab

theorem mergeEnv_restab (s : GoSlice EnvVar) (pps : List PodPreset)
    (h : (mergeEnv s pps).isOk = true) :
    mergeEnv (mergeValue (mergeEnv s pps)) pps = mergeEnv s pps := by
  have herr : errsOf EnvVar.name Conflict.env (GoMap.ofList EnvVar.name (sliceList s))
      (presetPairs PodPresetSpec.env pps) = [] := by
    by_contra hc
    rw [mergeEnv_spec, if_neg hc] at h
    simp [Except.isOk, Except.toBool] at h
  have hres : mergeEnv s pps = .ok (some (sliceList s ++
      appendedOf EnvVar.name (GoMap.ofList EnvVar.name (sliceList s))
        (presetPairs PodPresetSpec.env pps))) := by
    rw [mergeEnv_spec, if_pos herr]
  obtain ⟨h2, h3⟩ := restab_core EnvVar.name Conflict.env herr
  rw [hres]
  simp only [mergeValue]
  rw [mergeEnv_spec]
  simp only [sliceList_none, sliceList_some]
  rw [if_pos h2, h3, List.append_nil]

theorem mergeVolumes_restab (s : GoSlice Volume) (pps : List PodPreset)
    (h : (mergeVolumes s pps).isOk = true) :
    mergeVolumes (mergeValue (mergeVolumes s pps)) pps = mergeVolumes s pps := by
  have herr : errsOf Volume.name Conflict.volume (GoMap.ofList Volume.name (sliceList s))
      (presetPairs PodPresetSpec.volumes pps) = [] := by
    by_contra hc
    rw [mergeVolumes_spec, if_neg hc] at h
    simp [Except.isOk, Except.toBool] at h
  by_cases hm : sliceList s ++ appendedOf Volume.name (GoMap.ofList Volume.name (sliceList s))
      (presetPairs PodPresetSpec.volumes pps) = []
  · have hres : mergeVolumes s pps = .ok none := by
      rw [mergeVolumes_spec, if_pos herr, if_pos hm]
    obtain ⟨ho, ha⟩ := List.append_eq_nil.mp hm
    rw [hres]
    simp only [mergeValue]
    rw [mergeVolumes_spec]
    simp only [sliceList_none, sliceList_some]
    have hm0 : GoMap.ofList Volume.name ([] : List Volume) =
        GoMap.ofList Volume.name (sliceList s) := by rw [ho]
    rw [hm0, if_pos herr]
    have : ([] : List Volume) ++ appendedOf Volume.name (GoMap.ofList Volume.name (sliceList s))
        (presetPairs PodPresetSpec.volumes pps) = [] := by
      rw [List.nil_append, ha]
    rw [if_pos this]
  · have hres : mergeVolumes s pps = .ok (some (sliceList s ++
        appendedOf Volume.name (GoMap.ofList Volume.name (sliceList s))
          (presetPairs PodPresetSpec.volumes pps))) := by
      rw [mergeVolumes_spec, if_pos herr, if_neg hm]
    obtain ⟨h2, h3⟩ := restab_core Volume.name Conflict.volume herr
    rw [hres]
    simp only [mergeValue]
    rw [mergeVolumes_spec]
    simp only [sliceList_none, sliceList_some]
    rw [if_pos h2, h3, List.append_nil, if_neg hm]

theorem mergeVolumeMounts_restab (s : GoSlice VolumeMount) (pps : List PodPreset)
    (h : (mergeVolumeMounts s pps).isOk = true) :
    mergeVolumeMounts (mergeValue (mergeVolumeMounts s pps)) pps = mergeVolumeMounts s pps := by
  have herr : vmErrsOf (GoMap.ofList VolumeMount.name (sliceList s))
      (GoMap.ofList VolumeMount.mountPath (sliceList s))
      (presetPairs PodPresetSpec.volumeMounts pps) = [] := by
    by_contra hc
    rw [mergeVolumeMounts_spec, if_neg hc] at h
    simp [Except.isOk, Except.toBool] at h
  obtain ⟨hn, hp⟩ := (vmErrsOf_eq_nil_iff _ _ _).mp herr
  have hres : mergeVolumeMounts s pps = .ok (some (sliceList s ++
      appendedOf VolumeMount.name (GoMap.ofList VolumeMount.name (sliceList s))
        (presetPairs PodPresetSpec.volumeMounts pps))) := by
    rw [mergeVolumeMounts_spec, if_pos herr]
  obtain ⟨h2, h3⟩ := restab_core VolumeMount.name Conflict.volumeMountName hn
  have hpath2 : errsOf VolumeMount.mountPath Conflict.volumeMountPath
      (GoMap.ofList VolumeMount.mountPath (sliceList s ++
        appendedOf VolumeMount.name (GoMap.ofList VolumeMount.name (sliceList s))
          (presetPairs PodPresetSpec.volumeMounts pps)))
      (presetPairs PodPresetSpec.volumeMounts pps) = [] :=
    (errsOf_eq_nil_iff VolumeMount.mountPath Conflict.volumeMountPath _ _).mpr
      (compat_extend VolumeMount.mountPath
        (fun v hv => (mem_appendedOf VolumeMount.name hv).1)
        ((errsOf_eq_nil_iff VolumeMount.mountPath Conflict.volumeMountPath _ _).mp hp))
  have herr2 : vmErrsOf (GoMap.ofList VolumeMount.name (sliceList s ++
      appendedOf VolumeMount.name (GoMap.ofList VolumeMount.name (sliceList s))
        (presetPairs PodPresetSpec.volumeMounts pps)))
      (GoMap.ofList VolumeMount.mountPath (sliceList s ++
        appendedOf VolumeMount.name (GoMap.ofList VolumeMount.name (sliceList s))
          (presetPairs PodPresetSpec.volumeMounts pps)))
      (presetPairs PodPresetSpec.volumeMounts pps) = [] :=
    (vmErrsOf_eq_nil_iff _ _ _).mpr ⟨h2, hpath2⟩
  rw [hres]
  simp only [mergeValue]
  rw [mergeVolumeMounts_spec]
  simp only [sliceList_none, sliceList_some]
  rw [if_pos herr2, h3, List.append_nil]

theorem efAppendedOf_eq_nil_of_found {m : GoMap EnvFromMergeKey EnvFromSource}
    {l : List (String × EnvFromSource)}
    (h : ∀ p ∈ l, m (newEnvFromMergeKey p.2) ≠ none) : efAppendedOf m l = [] := by
  induction l with
  | nil => rfl
  | cons p t ih =>
    rw [efAppendedOf]
    cases hm : m (newEnvFromMergeKey p.2) with
    | none => exact absurd hm (h p (List.mem_cons_self p t))
    | some w => exact ih (fun q hq => h q (List.mem_cons_of_mem _ hq))

theorem mergeEnvFrom_restab (s : GoSlice EnvFromSource) (pps : List PodPreset)
    (h : (mergeEnvFrom s pps).isOk = true)
    (hpair : ∀ p ∈ presetPairs PodPresetSpec.envFrom pps,
      ∀ q ∈ presetPairs PodPresetSpec.envFrom pps,
      newEnvFromMergeKey p.2 = newEnvFromMergeKey q.2 → p.2 = q.2) :
    mergeEnvFrom (mergeValue (mergeEnvFrom s pps)) pps = mergeEnvFrom s pps := by
  have herr : efErrsOf (GoMap.ofList newEnvFromMergeKey (sliceList s))
      (presetPairs PodPresetSpec.envFrom pps) = [] := by
    by_contra hc
    rw [mergeEnvFrom_spec, if_neg hc] at h
    simp [Except.isOk, Except.toBool] at h
  have hok := (efErrsOf_eq_nil_iff _ _).mp herr
  by_cases hm : sliceList s ++ efAppendedOf (GoMap.ofList newEnvFromMergeKey (sliceList s))
      (presetPairs PodPresetSpec.envFrom pps) = []
  · have hres : mergeEnvFrom s pps = .ok none := by
      rw [mergeEnvFrom_spec, if_pos herr, if_pos hm]
    obtain ⟨ho, ha⟩ := List.append_eq_nil.mp hm
    have hpairs_nil : presetPairs PodPresetSpec.envFrom pps = [] := by
      have : GoMap.ofList newEnvFromMergeKey (sliceList s) = GoMap.empty := by
        rw [ho]; rfl
      rw [this] at ha
      rw [efAppendedOf_eq] at ha
      have hfilter : (presetPairs PodPresetSpec.envFrom pps).filter
          (fun p => (@GoMap.empty EnvFromMergeKey EnvFromSource (newEnvFromMergeKey p.2)).isNone) =
          presetPairs PodPresetSpec.envFrom pps := by
        apply List.filter_eq_self.mpr
        intro p _
        rfl
      rw [hfilter] at ha
      exact List.map_eq_nil_iff.mp ha
    rw [hres]
    simp only [mergeValue]
    rw [mergeEnvFrom_spec, hpairs_nil]
    simp [efErrsOf, efAppendedOf, sliceList_none, sliceList_some]
  · have hres : mergeEnvFrom s pps = .ok (some (sliceList s ++
        efAppendedOf (GoMap.ofList newEnvFromMergeKey (sliceList s))
          (presetPairs PodPresetSpec.envFrom pps))) := by
      rw [mergeEnvFrom_spec, if_pos herr, if_neg hm]
    have herr2 : efErrsOf (GoMap.ofList newEnvFromMergeKey (sliceList s ++
        efAppendedOf (GoMap.ofList newEnvFromMergeKey (sliceList s))
          (presetPairs PodPresetSpec.envFrom pps)))
        (presetPairs PodPresetSpec.envFrom pps) = [] := by
      apply (efErrsOf_eq_nil_iff _ _).mpr
      intro p hp w hw
      rw [ofList_append_apply] at hw
      cases ha : GoMap.ofList newEnvFromMergeKey
          (efAppendedOf (GoMap.ofList newEnvFromMergeKey (sliceList s))
            (presetPairs PodPresetSpec.envFrom pps)) (newEnvFromMergeKey p.2) with
      | some u =>
        rw [ha] at hw
        cases hw
        obtain ⟨hu_mem, hu_key⟩ := ofList_mem newEnvFromMergeKey ha
        obtain ⟨⟨n, hn⟩, _⟩ := mem_efAppendedOf.mp hu_mem
        exact hpair p hp (n, w) hn (by rw [show newEnvFromMergeKey (n, w).2 = newEnvFromMergeKey w from rfl, hu_key])
      | none =>
        rw [ha] at hw
        exact hok p hp w hw
    have happ2 : efAppendedOf (GoMap.ofList newEnvFromMergeKey (sliceList s ++
        efAppendedOf (GoMap.ofList newEnvFromMergeKey (sliceList s))
          (presetPairs PodPresetSpec.envFrom pps)))
        (presetPairs PodPresetSpec.envFrom pps) = [] := by
      apply efAppendedOf_eq_nil_of_found
      intro p hp hcon
      rw [ofList_append_apply] at hcon
      cases ha : GoMap.ofList newEnvFromMergeKey
          (efAppendedOf (GoMap.ofList newEnvFromMergeKey (sliceList s))
            (presetPairs PodPresetSpec.envFrom pps)) (newEnvFromMergeKey p.2) with
      | some u => rw [ha] at hcon; cases hcon
      | none =>
        rw [ha] at hcon
        have hpin : p.2 ∈ efAppendedOf (GoMap.ofList newEnvFromMergeKey (sliceList s))
            (presetPairs PodPresetSpec.envFrom pps) :=
          mem_efAppendedOf.mpr ⟨⟨p.1, by simpa using hp⟩, hcon⟩
        have : newEnvFromMergeKey p.2 ∈
            (efAppendedOf (GoMap.ofList newEnvFromMergeKey (sliceList s))
              (presetPairs PodPresetSpec.envFrom pps)).map newEnvFromMergeKey :=
          List.mem_map_of_mem _ hpin
        exact (ofList_eq_none_iff newEnvFromMergeKey).mp ha this
    rw [hres]
    simp only [mergeValue]
    rw [mergeEnvFrom_spec]
    simp only [sliceList_none, sliceList_some]
    rw [if_pos herr2, happ2, List.append_nil, if_neg hm]

/-- Idempotent re-application of the presets to one container, given that all
three attribute merges were conflict-free and no two overlay EnvFrom entries
share a merge key with unequal values. -/
theorem applyPodPresetsOnContainer_idem (ctr : Container) (pps : List PodPreset)
    (hE : (mergeEnv ctr.env pps).isOk = true)
    (hEF : (mergeEnvFrom ctr.envFrom pps).isOk = true)
    (hVM : (mergeVolumeMounts ctr.volumeMounts pps).isOk = true)
    (hpair : ∀ p ∈ presetPairs PodPresetSpec.envFrom pps,
      ∀ q ∈ presetPairs PodPresetSpec.envFrom pps,
      newEnvFromMergeKey p.2 = newEnvFromMergeKey q.2 → p.2 = q.2) :
    applyPodPresetsOnContainer (applyPodPresetsOnContainer ctr pps) pps =
      applyPodPresetsOnContainer ctr pps := by
  show Container.mk _ _ _ = Container.mk _ _ _
  rw [Container.mk.injEq]
  refine ⟨?_, ?_, ?_⟩
  · show mergeValue (mergeEnv (mergeValue (mergeEnv ctr.env pps)) pps) = _
    rw [mergeEnv_restab ctr.env pps hE]
  · show mergeValue (mergeEnvFrom (mergeValue (mergeEnvFrom ctr.envFrom pps)) pps) = _
    rw [mergeEnvFrom_restab ctr.envFrom pps hEF hpair]
  · show mergeValue (mergeVolumeMounts (mergeValue (mergeVolumeMounts ctr.volumeMounts pps)) pps) = _
    rw [mergeVolumeMounts_restab ctr.volumeMounts pps hVM]

/-- Go map lookup on the association-list embedding of the annotation map. -/
def alookup : List (String × String) → String → Option String
  | [], _ => none
  | (k', v') :: t, k => if k' = k then some v' else alookup t k

theorem alookup_upsert (l : List (String × String)) (k v k' : String) :
    alookup (upsert l k v) k' = if k' = k then some v else alookup l k' := by
  induction l with
  | nil =>
    simp only [upsert, alookup]
    by_cases hk : k = k'
    · rw [if_pos hk, if_pos hk.symm]
    · rw [if_neg hk, if_neg (fun hc => hk hc.symm)]
  | cons ab t ih =>
    obtain ⟨a, b⟩ := ab
    rw [upsert]
    by_cases hak : a = k
    · rw [if_pos hak, alookup, alookup]
      by_cases hk : k = k'
      · rw [if_pos hk, if_pos hk.symm]
      · rw [if_neg hk, if_neg (fun hc => hk hc.symm), if_neg (hak ▸ hk)]
    · rw [if_neg hak, alookup, alookup, ih]
      by_cases hk : a = k'
      · rw [if_pos hk, if_neg (fun hc : k' = k => hak (hk.trans hc)), if_pos hk]
      · rw [if_neg hk, if_neg hk]

/-- The annotation fold from applyPodPresetsOnPod, over explicit key-value
pairs. -/
def upsertAll (a : List (String × String)) (ks : List (String × String)) :
    List (String × String) :=
  ks.foldl (fun a kv => upsert a kv.1 kv.2) a

theorem upsert_noop {l : List (String × String)} {k v : String}
    (h : alookup l k = some v) : upsert l k v = l := by
  induction l with
  | nil => cases h
  | cons ab t ih =>
    obtain ⟨a, b⟩ := ab
    rw [alookup] at h
    rw [upsert]
    by_cases hak : a = k
    · rw [if_pos hak] at h
      cases h
      rw [if_pos hak, hak]
    · rw [if_neg hak] at h
      rw [if_neg hak, ih h]

theorem alookup_upsertAll_not_mem {ks : List (String × String)} {k : String}
    (hk : k ∉ ks.map Prod.fst) (a : List (String × String)) :
    alookup (upsertAll a ks) k = alookup a k := by
  induction ks generalizing a with
  | nil => rfl
  | cons kv t ih =>
    rw [List.map_cons, List.mem_cons] at hk
    push_neg at hk
    show alookup (upsertAll (upsert a kv.1 kv.2) t) k = _
    rw [ih hk.2, alookup_upsert, if_neg hk.1]

theorem alookup_upsertAll_of_nodup {ks : List (String × String)}
    (hnd : (ks.map Prod.fst).Nodup) (a : List (String × String)) {k v : String}
    (hkv : (k, v) ∈ ks) : alookup (upsertAll a ks) k = some v := by
  induction ks generalizing a with
  | nil => cases hkv
  | cons kv t ih =>
    rw [List.map_cons, List.nodup_cons] at hnd
    show alookup (upsertAll (upsert a kv.1 kv.2) t) k = some v
    rcases List.mem_cons.mp hkv with rfl | hkv'
    · rw [alookup_upsertAll_not_mem hnd.1, alookup_upsert, if_pos rfl]
    · exact ih hnd.2 _ hkv'

theorem upsertAll_noop {b : List (String × String)} {ks : List (String × String)}
    (h : ∀ kv ∈ ks, alookup b kv.1 = some kv.2) : upsertAll b ks = b := by
  induction ks with
  | nil => rfl
  | cons kv t ih =>
    show upsertAll (upsert b kv.1 kv.2) t = b
    rw [upsert_noop (h kv (List.mem_cons_self kv t))]
    exact ih (fun q hq => h q (List.mem_cons_of_mem _ hq))

theorem upsertAll_idem {a ks : List (String × String)}
    (hnd : (ks.map Prod.fst).Nodup) : upsertAll (upsertAll a ks) ks = upsertAll a ks :=
  upsertAll_noop (fun kv hkv =>
    alookup_upsertAll_of_nodup hnd a (by rw [Prod.mk.eta]; exact hkv))

theorem annotKey_inj {a b : String} (h : annotKey a = annotKey b) : a = b := by
  unfold annotKey at h
  have hd := congrArg String.data h
  simp only [String.data_append] at hd
  exact String.ext (List.append_cancel_left hd)

/-- Claim C7 counterexample: two overlays contribute EnvFrom entries sharing a
merge key with unequal values.  The probe and every merger accept the first
application (mergeEnvFrom cannot see overlay-overlay collisions), but the
second application finds the previously injected entries conflicting and
wipes EnvFrom to nil, so applying twice differs from applying once. -/
theorem claim_C7_counterexample :
    safeToApplyPodPresetsOnPod ⟨none, ⟨none, [⟨none, none, none⟩], []⟩⟩
        [⟨"P1", "1", ⟨[], [⟨"p", some ⟨"c", some true⟩, none⟩], [], []⟩⟩,
         ⟨"P2", "1", ⟨[], [⟨"p", some ⟨"c", some false⟩, none⟩], [], []⟩⟩] = [] ∧
    mergeEnvFrom (none : GoSlice EnvFromSource)
        [⟨"P1", "1", ⟨[], [⟨"p", some ⟨"c", some true⟩, none⟩], [], []⟩⟩,
         ⟨"P2", "1", ⟨[], [⟨"p", some ⟨"c", some false⟩, none⟩], [], []⟩⟩] =
      .ok (some [⟨"p", some ⟨"c", some true⟩, none⟩, ⟨"p", some ⟨"c", some false⟩, none⟩]) ∧
    decide (applyPodPresetsOnPod
        (applyPodPresetsOnPod ⟨none, ⟨none, [⟨none, none, none⟩], []⟩⟩
          [⟨"P1", "1", ⟨[], [⟨"p", some ⟨"c", some true⟩, none⟩], [], []⟩⟩,
           ⟨"P2", "1", ⟨[], [⟨"p", some ⟨"c", some false⟩, none⟩], [], []⟩⟩])
        [⟨"P1", "1", ⟨[], [⟨"p", some ⟨"c", some true⟩, none⟩], [], []⟩⟩,
         ⟨"P2", "1", ⟨[], [⟨"p", some ⟨"c", some false⟩, none⟩], [], []⟩⟩] =
      applyPodPresetsOnPod ⟨none, ⟨none, [⟨none, none, none⟩], []⟩⟩
        [⟨"P1", "1", ⟨[], [⟨"p", some ⟨"c", some true⟩, none⟩], [], []⟩⟩,
         ⟨"P2", "1", ⟨[], [⟨"p", some ⟨"c", some false⟩, none⟩], [], []⟩⟩]) = false := by
  decide

/-- Claim C7 (amended): applying the overlay set twice equals applying it
once, provided the preset names are distinct, every attribute merger reports
no conflict on the original target, and additionally no two overlay EnvFrom
entries share an identity key with unequal values (without the last condition
the second application can find the first application's EnvFrom injections in
conflict and wipe them; see the counterexample). -/
theorem claim_C7 (pod : Pod) (pps : List PodPreset)
    (hnames : (pps.map PodPreset.name).Nodup)
    (hvol : (mergeVolumes pod.spec.volumes pps).isOk = true)
    (hc : ∀ c ∈ pod.spec.containers,
      (mergeEnv c.env pps).isOk = true ∧ (mergeEnvFrom c.envFrom pps).isOk = true ∧
        (mergeVolumeMounts c.volumeMounts pps).isOk = true)
    (hic : ∀ c ∈ pod.spec.initContainers,
      (mergeEnv c.env pps).isOk = true ∧ (mergeEnvFrom c.envFrom pps).isOk = true ∧
        (mergeVolumeMounts c.volumeMounts pps).isOk = true)
    (hpair : ∀ p ∈ presetPairs PodPresetSpec.envFrom pps,
      ∀ q ∈ presetPairs PodPresetSpec.envFrom pps,
      newEnvFromMergeKey p.2 = newEnvFromMergeKey q.2 → p.2 = q.2) :
    applyPodPresetsOnPod (applyPodPresetsOnPod pod pps) pps = applyPodPresetsOnPod pod pps := by
  by_cases hnil : pps.length = 0
  · simp only [applyPodPresetsOnPod, if_pos hnil]
  · have unfold1 : ∀ q : Pod, applyPodPresetsOnPod q pps =
        { spec :=
            { volumes := mergeValue (mergeVolumes q.spec.volumes pps)
              containers := q.spec.containers.map (applyPodPresetsOnContainer · pps)
              initContainers := q.spec.initContainers.map (applyPodPresetsOnContainer · pps) }
          annots :=
            some (pps.foldl (fun a pp => upsert a (annotKey pp.name) pp.resourceVersion)
              (match q.annots with | none => [] | some a => a)) } := by
      intro q
      rw [applyPodPresetsOnPod, if_neg hnil]
    have hfold : ∀ a, pps.foldl (fun a pp => upsert a (annotKey pp.name) pp.resourceVersion) a =
        upsertAll a (pps.map (fun pp => (annotKey pp.name, pp.resourceVersion))) := by
      intro a
      rw [upsertAll, List.foldl_map]
    have hkeys : ((pps.map (fun pp => (annotKey pp.name, pp.resourceVersion))).map
        Prod.fst).Nodup := by
      rw [List.map_map]
      show (pps.map fun pp => annotKey pp.name).Nodup
      have h2 : (pps.map fun pp => annotKey pp.name) =
          (pps.map PodPreset.name).map annotKey := by
        rw [List.map_map]; rfl
      rw [h2]
      exact hnames.map (fun a b hab => annotKey_inj hab)
    rw [unfold1 pod, unfold1]
    rw [Pod.mk.injEq]
    constructor
    · show some (pps.foldl _ (pps.foldl _ (match pod.annots with | none => [] | some a => a))) =
        some (pps.foldl _ (match pod.annots with | none => [] | some a => a))
      rw [hfold, hfold]
      exact congrArg some (upsertAll_idem hkeys)
    · rw [PodSpec.mk.injEq]
      refine ⟨?_, ?_, ?_⟩
      · show mergeValue (mergeVolumes (mergeValue (mergeVolumes pod.spec.volumes pps)) pps) = _
        rw [mergeVolumes_restab pod.spec.volumes pps hvol]
      · show (pod.spec.containers.map (applyPodPresetsOnContainer · pps)).map
            (applyPodPresetsOnContainer · pps) = _
        rw [List.map_map]
        apply List.map_congr_left
        intro c hcmem
        obtain ⟨h1, h2, h3⟩ := hc c hcmem
        exact applyPodPresetsOnContainer_idem c pps h1 h2 h3 hpair
      · show (pod.spec.initContainers.map (applyPodPresetsOnContainer · pps)).map
            (applyPodPresetsOnContainer · pps) = _
        rw [List.map_map]
        apply List.map_congr_left
        intro c hcmem
        obtain ⟨h1, h2, h3⟩ := hic c hcmem
        exact applyPodPresetsOnContainer_idem c pps h1 h2 h3 hpair

/-- Witness for claim C7 at a concrete conflict-free input. -/
theorem claim_C7_witness :
    applyPodPresetsOnPod
        (applyPodPresetsOnPod ⟨none, ⟨none, [⟨some [⟨"A", "1"⟩], none, none⟩], []⟩⟩
          [⟨"P1", "1", ⟨[⟨"B", "2"⟩], [⟨"p", some ⟨"c", some true⟩, none⟩], [⟨"vol", "src"⟩],
            [⟨"vm", "/data", false⟩]⟩⟩])
        [⟨"P1", "1", ⟨[⟨"B", "2"⟩], [⟨"p", some ⟨"c", some true⟩, none⟩], [⟨"vol", "src"⟩],
          [⟨"vm", "/data", false⟩]⟩⟩] =
      applyPodPresetsOnPod ⟨none, ⟨none, [⟨some [⟨"A", "1"⟩], none, none⟩], []⟩⟩
        [⟨"P1", "1", ⟨[⟨"B", "2"⟩], [⟨"p", some ⟨"c", some true⟩, none⟩], [⟨"vol", "src"⟩],
          [⟨"vm", "/data", false⟩]⟩⟩] :=
  claim_C7 ⟨none, ⟨none, [⟨some [⟨"A", "1"⟩], none, none⟩], []⟩⟩
    [⟨"P1", "1", ⟨[⟨"B", "2"⟩], [⟨"p", some ⟨"c", some true⟩, none⟩], [⟨"vol", "src"⟩],
      [⟨"vm", "/data", false⟩]⟩⟩]
    (by decide) (by decide) (by decide) (by decide) (by decide)

end PodPresetWebhook
